import Mathlib

/-!
Verification of the Prisma SD-WAN policy push script
(`pov-automation/02_policy_scripts/push_policy_refactored_original-gemini.py`).

The script is a declarative reconciliation engine: it diffs a YAML desired
state against live controller objects and issues create/update/delete calls.
This file gives a shallow embedding of the script's data model (YAML/JSON
values as `Value`), of the `dictdiffer.diff` routine it relies on, and of the
script's own functions (`compareconf`, `update_payload`, `extractfromyaml`,
`update_rule`, `update_stack`, the `translate_*` helpers and the
`push_policy_path` / `push_policy_nat` reconciliation flows), and proves or
refutes the specified properties about them.

Python dictionaries are modelled as insertion-ordered association lists;
Python exceptions are modelled by `Option`/`Except` results (`none` /
`.error` = the call raises).  Remote calls are modelled against a store that
always reports success (`cgx_status == True`), with the trace of write calls
(POST/PUT/DELETE) recorded explicitly; read calls are answered from the
store state.
-/

namespace PrismaPolicy

/-- A YAML/JSON value as manipulated by the script: Python `None`, `bool`,
`int`, `str`, `list` and (insertion-ordered) `dict`. -/
inductive Value where
  | null : Value
  | bool : Bool → Value
  | num : Int → Value
  | str : String → Value
  | list : List Value → Value
  | dict : List (String × Value) → Value
deriving Inhabited, Repr

/-- Python dictionaries with string keys. -/
abbrev Dict := List (String × Value)

mutual

/-- Structural equality on values, modelling Python `==` on the JSON-like
fragment the script manipulates. -/
def beqV : Value → Value → Bool
  | .null, .null => true
  | .bool a, .bool b => a == b
  | .num a, .num b => a == b
  | .str a, .str b => a == b
  | .list a, .list b => beqL a b
  | .dict a, .dict b => beqD a b
  | _, _ => false

/-- Equality on value lists. -/
def beqL : List Value → List Value → Bool
  | [], [] => true
  | a :: as, b :: bs => beqV a b && beqL as bs
  | _, _ => false

/-- Equality on dictionaries (key order matters, as for association lists;
Python dicts built by the script are compared key-by-key by `diff`, never by
`==`, so this order-sensitivity is unobservable in the embedded flows). -/
def beqD : Dict → Dict → Bool
  | [], [] => true
  | (k, a) :: as, (l, b) :: bs => k == l && beqV a b && beqD as bs
  | _, _ => false

end

/-- Python `d.get(key)` / `d[key]`: first binding of `key`, if any. -/
def pyGet : Dict → String → Option Value
  | [], _ => none
  | (k, v) :: rest, key => if k = key then some v else pyGet rest key

/-- Python `key in d`. -/
def containsKey (d : Dict) (key : String) : Bool :=
  (pyGet d key).isSome

/-- The keys of an association list are pairwise distinct (the invariant of
a real Python dict). -/
def nodupKeys : Dict → Bool
  | [] => true
  | (k, _) :: rest => !(containsKey rest k) && nodupKeys rest

mutual

/-- Well-formedness: every dictionary nested inside the value has distinct
keys.  This is an invariant of real Python dicts, which the association-list
model does not enforce by construction. -/
def wfV : Value → Bool
  | .null => true
  | .bool _ => true
  | .num _ => true
  | .str _ => true
  | .list l => wfL l
  | .dict d => nodupKeys d && wfD d

/-- Well-formedness for value lists. -/
def wfL : List Value → Bool
  | [] => true
  | v :: rest => wfV v && wfL rest

/-- Well-formedness for dictionary entries. -/
def wfD : Dict → Bool
  | [] => true
  | (_, v) :: rest => wfV v && wfD rest

end

/-- Python `d[key] = v`: replace the first binding in place, else append. -/
def pySet : Dict → String → Value → Dict
  | [], key, v => [(key, v)]
  | (k, w) :: rest, key, v =>
      if k = key then (k, v) :: rest else (k, w) :: pySet rest key v

/-- Python `del d[key]` (used by the script only after an `in` check; on a
missing key this simply leaves the dict unchanged). -/
def pyDel : Dict → String → Dict
  | [], _ => []
  | (k, w) :: rest, key => if k = key then rest else (k, w) :: pyDel rest key

/-- Python truthiness of a value (`if x:`). -/
def pyTruthy : Value → Bool
  | .null => false
  | .bool b => b
  | .num n => n != 0
  | .str s => s ≠ ""
  | .list l => !l.isEmpty
  | .dict d => !d.isEmpty

/-- Python `len(x)` for sized values; `none` models a `TypeError`. -/
def pyLen : Value → Option Nat
  | .str s => some s.length
  | .list l => some l.length
  | .dict d => some d.length
  | _ => none

/-- Lookup in a plain string-to-string translation table (the script's
`*_name_id` / `*_id_name` global dicts). -/
def tlookup : List (String × String) → String → Option String
  | [], _ => none
  | (k, v) :: rest, key => if k = key then some v else tlookup rest key

/-- Insert/overwrite in a string-to-string translation table. -/
def tset : List (String × String) → String → String → List (String × String)
  | [], key, v => [(key, v)]
  | (k, w) :: rest, key, v =>
      if k = key then (k, v) :: rest else (k, w) :: tset rest key v

/-! ### The `dictdiffer.diff` dependency

`compareconf` is built on `dictdiffer.diff` (v0.9): a recursive diff that
yields `('change', node, (old, new))` for differing leaves, and grouped
`('add', node, pairs)` / `('remove', node, pairs)` events for keys present
on only one side, where `node` is the dotted path to the parent (a string
when every path component is a dot-free string, otherwise the path list). -/

/-- One component of a diff path: a dict key or a list index. -/
inductive PKey where
  | s : String → PKey
  | i : Nat → PKey
deriving DecidableEq, Repr

/-- A diff node: dotted-string form or raw path-list form.  `dstr comps`
stands for the Python string `".".join(comps)`; the components are kept
(rather than the joined string) because `dictdiffer` only produces the
joined form when every component is a dot-free string, so the joined string
and the component list determine each other, and every string test
`compareconf` performs on the joined string (`"." in node`, `split(".")`,
`== ""`) is computed below from the components under that invariant. -/
inductive NodeRep where
  | dstr : List String → NodeRep
  | dpath : List PKey → NodeRep
deriving DecidableEq, Repr

/-- The dotted representation of a path, as in `dictdiffer.utils.dotted`:
a `"."`-join when all components are dot-free strings, else the raw list. -/
def dotted (node : List PKey) : NodeRep :=
  if node.all (fun x => match x with | .s st => !(st.data.contains '.') | .i _ => false) then
    .dstr (node.map (fun x => match x with | .s st => st | .i _ => ""))
  else
    .dpath node

/-- A diff event as yielded by `dictdiffer.diff`. -/
inductive DEvent where
  | change : NodeRep → Value × Value → DEvent
  | add : NodeRep → List (PKey × Value) → DEvent
  | remove : NodeRep → List (PKey × Value) → DEvent

/-- The node (second tuple component) of a diff event. -/
def DEvent.node : DEvent → NodeRep
  | .change n _ => n
  | .add n _ => n
  | .remove n _ => n

mutual

/-- `dictdiffer.diff(first, second)` at path `node`: dicts recurse on the
keys common to both (in `first`'s order) and group additions/removals;
lists recurse index-wise on the common prefix; anything else yields a
`change` event when unequal. -/
def diffV : Value → Value → List PKey → List DEvent
  | .dict f, .dict s, node =>
      diffDInter f s node
        ++ (let adds := (s.filter (fun kv => !(containsKey f kv.1))).map
              (fun kv => (PKey.s kv.1, kv.2))
            if adds.isEmpty then [] else [.add (dotted node) adds])
        ++ (let dels := (f.filter (fun kv => !(containsKey s kv.1))).map
              (fun kv => (PKey.s kv.1, kv.2))
            if dels.isEmpty then [] else [.remove (dotted node) dels])
  | .list f, .list s, node =>
      diffLInter f s node 0
        ++ (let adds := (s.drop f.length).enum.map
              (fun p => (PKey.i (p.1 + f.length), p.2))
            if adds.isEmpty then [] else [.add (dotted node) adds])
        ++ (let dels := ((f.drop s.length).enum.map
              (fun p => (PKey.i (p.1 + s.length), p.2))).reverse
            if dels.isEmpty then [] else [.remove (dotted node) dels])
  | f, s, node => if beqV f s then [] else [.change (dotted node) (f, s)]

/-- Dict recursion of `diff`: walk `first`'s entries; for each key also
present in `second`, recurse on the two values. -/
def diffDInter : Dict → Dict → List PKey → List DEvent
  | [], _, _ => []
  | (k, v) :: rest, s, node =>
      (match pyGet s k with
       | some w => diffV v w (node ++ [PKey.s k])
       | none => []) ++ diffDInter rest s node

/-- List recursion of `diff`: recurse index-wise on the common prefix. -/
def diffLInter : List Value → List Value → List PKey → Nat → List DEvent
  | [], _, _, _ => []
  | _, [], _, _ => []
  | a :: as, b :: bs, node, i =>
      diffV a b (node ++ [PKey.i i]) ++ diffLInter as bs node (i + 1)

end

/-- One step of `compareconf`'s loop over diff events: collect the
top-level component of the event's node, deduplicating, skipping the empty
dotted node. -/
def ccStep (acc : List PKey) (ev : DEvent) : List PKey :=
  match ev.node with
  | .dstr comps =>
      -- `"." in joined` holds exactly when there are two or more (dot-free)
      -- components; `joined.split(".")[0]` and, when there is at most one
      -- component, `joined` itself, are both `comps.headI`.
      if 2 ≤ comps.length then
        let h := PKey.s comps.headI
        if acc.contains h then acc else acc ++ [h]
      else if acc.contains (PKey.s comps.headI) then acc
      else if comps.headI = "" then acc
      else acc ++ [PKey.s comps.headI]
  | .dpath [] => acc
  | .dpath (x :: _) => if acc.contains x then acc else acc ++ [x]

/-- `compareconf(origconf, curconf)`: the deduplicated top-level keys under
which `dictdiffer.diff(origconf, curconf)` reports differences. -/
def compareconf (origconf curconf : Value) : List PKey :=
  (diffV origconf curconf []).foldl ccStep []

/-- `update_payload(source, dest)`: copy every binding of `source` into
`dest` (Python `for key in source.keys(): dest[key] = source[key]`). -/
def update_payload (source dest : Dict) : Dict :=
  source.foldl (fun d kv => pySet d kv.1 kv.2) dest

/-! ### Script constants -/

/-- Config-type key for Path stacks. -/
def NETWORK_POLICY_STACKS : String := "networkpolicysetstacks"

/-- Config-type key for Path sets. -/
def NETWORK_POLICY_SETS : String := "networkpolicysets"

/-- Config-type key for Path rules. -/
def NETWORK_POLICY_RULES : String := "networkpolicyrules"

/-- Config-type key for QoS stacks. -/
def PRIORITY_POLICY_STACKS : String := "prioritypolicysetstacks"

/-- Config-type key for QoS sets. -/
def PRIORITY_POLICY_SETS : String := "prioritypolicysets"

/-- Config-type key for QoS rules. -/
def PRIORITY_POLICY_RULES : String := "prioritypolicyrules"

/-- Config-type key for NAT stacks. -/
def NAT_POLICY_STACKS : String := "natpolicysetstacks"

/-- Config-type key for NAT sets. -/
def NAT_POLICY_SETS : String := "natpolicysets"

/-- Config-type key for NAT rules. -/
def NAT_POLICY_RULES : String := "natpolicyrules"

/-- Config-type key for Security stacks. -/
def SECURITY_POLICY_STACKS : String := "ngfwsecuritypolicysetstacks"

/-- Config-type key for Security sets. -/
def SECURITY_POLICY_SETS : String := "ngfwsecuritypolicysets"

/-- Config-type key for Security rules. -/
def SECURITY_POLICY_RULES : String := "ngfwsecuritypolicyrules"

/-! ### Desired-state loader: `extractfromyaml`

The loader converts the YAML list-of-single-key-wrappers form into a
name-keyed dict, injecting `name` into each object's attributes.  The
Python function returns `None` (not an empty dict) when the requested
`config_type` key is absent, and may itself raise (modelled as
`.error ()`) when an entry is not a nonempty dict of dicts. -/

/-- Body shared by the twelve per-domain branches of `extractfromyaml`
(the source spells the same loop out once per config type): fold the
wrapper list into a name-keyed dict.  `none` models an exception
(`IndexError` on an empty wrapper, `AttributeError`/`TypeError` on
non-dict entries or bodies). -/
def extractOne (items : List Value) : Option Dict :=
  items.foldlM
    (fun acc data =>
      match data with
      | .dict ((k, .dict body) :: _) => some (pySet acc k (.dict (pySet body "name" (.str k))))
      | _ => none)
    []

/-- The Performance branch of `extractfromyaml`: identical, except falsy
entries are skipped (`if not data: continue`). -/
def extractOnePerf (items : List Value) : Option Dict :=
  items.foldlM
    (fun acc data =>
      if pyTruthy data = false then some acc
      else
        match data with
        | .dict ((k, .dict body) :: _) => some (pySet acc k (.dict (pySet body "name" (.str k))))
        | _ => none)
    []

/-- The twelve per-domain config types whose `extractfromyaml` branches
share the same body (modelled by membership instead of the source's twelve
identical `elif` branches). -/
def standardConfigTypes : List String :=
  [NETWORK_POLICY_STACKS, NETWORK_POLICY_SETS, NETWORK_POLICY_RULES,
   PRIORITY_POLICY_STACKS, PRIORITY_POLICY_SETS, PRIORITY_POLICY_RULES,
   NAT_POLICY_STACKS, NAT_POLICY_SETS, NAT_POLICY_RULES,
   SECURITY_POLICY_STACKS, SECURITY_POLICY_SETS, SECURITY_POLICY_RULES]

/-- `extractfromyaml(loaded_config, config_type)`.  `.ok none` is Python's
`return None` (key absent, after printing "No configs found ... Skipping..",
or an unknown config type falling off the `elif` chain); `.error ()` is an
uncaught exception while iterating the entries. -/
def extractfromyaml (loaded_config : Dict) (config_type : String) :
    Except Unit (Option Dict) :=
  if containsKey loaded_config config_type = false then .ok none
  else if standardConfigTypes.contains config_type then
    match (pyGet loaded_config config_type).getD .null with
    | .list items =>
        match extractOne items with
        | some d => .ok (some d)
        | none => .error ()
    | _ => .error ()
  else if config_type = "perfmgmtpolicysets" ∨ config_type = "perfmgmtpolicysetstacks" then
    match (pyGet loaded_config config_type).getD .null with
    | .list items =>
        match extractOnePerf items with
        | some d => .ok (some d)
        | none => .error ()
    | _ => .error ()
  else .ok none

/-! ### `update_rule` and `update_stack` -/

/-- Structural `mapM` over `Option` (kept first-order for proofs). -/
def mapOptList {α β : Type} (f : α → Option β) : List α → Option (List β)
  | [] => some []
  | a :: t => do
      let b ← f a
      let bs ← mapOptList f t
      some (b :: bs)

/-- The `update_rule` loop body for one `paths_allowed` member: `None` is
kept, an empty container becomes `None`, other sized values are kept, and
an unsized value raises `TypeError` in `len`. -/
def updateRuleStep (kv : String × Value) : Option (String × Value) :=
  match kv.2 with
  | .null => some kv
  | v =>
      match pyLen v with
      | some 0 => some (kv.1, Value.null)
      | some _ => some kv
      | none => none

/-- `update_rule(rule_config)`: convert empty containers inside
`paths_allowed` to `None` ("finddiff issue").  `none` models the
`AttributeError` raised when the rule has no (dict-valued) `paths_allowed`,
or a `TypeError` from `len` on an unsized member. -/
def update_rule (rule_config : Dict) : Option Dict :=
  match pyGet rule_config "paths_allowed" with
  | some (.dict pa) => do
      let pa2 ← mapOptList updateRuleStep pa
      some (pySet rule_config "paths_allowed" (.dict pa2))
  | _ => none

/-- `update_stack(stack_config)`: convert an empty `policyset_ids` to
`None`.  `none` models the `TypeError` from `len(None)` when the field is
absent or null. -/
def update_stack (stack_config : Dict) : Option Dict :=
  match pyLen ((pyGet stack_config "policyset_ids").getD .null) with
  | some 0 => some (pySet stack_config "policyset_ids" Value.null)
  | some _ => some stack_config
  | none => none

/-! ### Security rule translation (`translate_rule`, `SECURITY`/`N2ID`)

The catalogs are the module-level translation dicts, passed explicitly. -/

/-- The translation tables consulted by the Security branch of
`translate_rule`. -/
structure SecCatalog where
  ngfwglobalprefix_name_id : List (String × String)
  ngfwlocalprefix_name_id : List (String × String)
  seczone_name_id : List (String × String)
  app_name_id : List (String × String)

/-- Membership tests (`x in d.keys()`) raise `TypeError` on unhashable
values; all entries of a reference list must be hashable. -/
def allHashable : List Value → Bool
  | [] => true
  | .list _ :: _ => false
  | .dict _ :: _ => false
  | _ :: rest => allHashable rest

/-- The prefix-reference loop body: names found in the global table (else
the local table) are translated; anything else is dropped — never appended
and never warned about. -/
def filterResolvedGL (g l : List (String × String)) : List Value → List String
  | [] => []
  | .str nm :: rest =>
      (match tlookup g nm with
       | some i => some i
       | none => tlookup l nm).elim (filterResolvedGL g l rest) (· :: filterResolvedGL g l rest)
  | _ :: rest => filterResolvedGL g l rest

/-- The zone-reference loop body: unresolved names are dropped silently. -/
def filterResolved (z : List (String × String)) : List Value → List String
  | [] => []
  | .str nm :: rest =>
      (tlookup z nm).elim (filterResolved z rest) (· :: filterResolved z rest)
  | _ :: rest => filterResolved z rest

/-- The app-reference loop body: resolved names become IDs; unresolved
entries are passed through unchanged and reported (second component). -/
def transAppsList (t : List (String × String)) : List Value → List Value × List Value
  | [] => ([], [])
  | .str nm :: rest =>
      let (tl, ws) := transAppsList t rest
      (match tlookup t nm with
       | some i => (Value.str i :: tl, ws)
       | none => (Value.str nm :: tl, Value.str nm :: ws))
  | v :: rest =>
      let (tl, ws) := transAppsList t rest
      (v :: tl, v :: ws)

/-- One prefix field of the Security `N2ID` branch: when the field holds a
list, replace it by the translated list; `None`/absent fields are left
untouched.  `none` models a `TypeError` (unhashable entry) or iterating a
non-list value. -/
def secFieldPrefix (g l : List (String × String)) (rule : Dict) (f : String) : Option Dict :=
  match pyGet rule f with
  | some (.list items) =>
      if allHashable items then
        some (pySet rule f (.list ((filterResolvedGL g l items).map .str)))
      else none
  | some .null => some rule
  | none => some rule
  | some _ => none

/-- One zone field of the Security `N2ID` branch. -/
def secFieldZone (z : List (String × String)) (rule : Dict) (f : String) : Option Dict :=
  match pyGet rule f with
  | some (.list items) =>
      if allHashable items then
        some (pySet rule f (.list ((filterResolved z items).map .str)))
      else none
  | some .null => some rule
  | none => some rule
  | some _ => none

/-- `translate_rule(rule, SECURITY, N2ID)`: translate the two prefix
fields, the two zone fields, then `app_def_ids`.  Unresolved prefix/zone
names are dropped; unresolved app names are passed through with a warning
(returned as the second component; the source prints them).  `none` models
an exception: an unhashable list entry, a non-list reference value, or the
`KeyError` from `rule["name"]` inside the warning `print` when the rule has
no `name`. -/
def translateRuleSecN2ID (cat : SecCatalog) (rule : Dict) :
    Option (Dict × List Value) := do
  let r1 ← secFieldPrefix cat.ngfwglobalprefix_name_id cat.ngfwlocalprefix_name_id
    rule "source_prefix_ids"
  let r2 ← secFieldPrefix cat.ngfwglobalprefix_name_id cat.ngfwlocalprefix_name_id
    r1 "destination_prefix_ids"
  let r3 ← secFieldZone cat.seczone_name_id r2 "source_zone_ids"
  let r4 ← secFieldZone cat.seczone_name_id r3 "destination_zone_ids"
  match pyGet r4 "app_def_ids" with
  | some (.list items) =>
      if allHashable items then
        let (out, ws) := transAppsList cat.app_name_id items
        if !ws.isEmpty && (pyGet r4 "name").isNone then none
        else some (pySet r4 "app_def_ids" (.list out), ws)
      else none
  | some .null => some (r4, [])
  | none => some (r4, [])
  | some _ => none

/-! ### Default-set name derivation in the stack reconcilers -/

/-- The derived-name convention used by the Path, QoS and Security stack
steps: strip `" (Simple)"` from the stack name and append
`" Default Rule Policy Set (Simple)"`. -/
def derivedDefaultName (stackname : String) : String :=
  (stackname.replace " (Simple)" "") ++ " Default Rule Policy Set (Simple)"

/-- Path stack preparation: force `defaultrule_policyset_id` to the derived
default-set name so that `translate_stack` fetches the fresh ID. -/
def pathPrepareStack (stackname : String) (stack_yaml : Dict) : Dict :=
  pySet stack_yaml "defaultrule_policyset_id" (.str (derivedDefaultName stackname))

/-- QoS stack preparation (same three lines as for Path). -/
def qosPrepareStack (stackname : String) (stack_yaml : Dict) : Dict :=
  pySet stack_yaml "defaultrule_policyset_id" (.str (derivedDefaultName stackname))

/-- Security stack preparation (same three lines as for Path). -/
def secPrepareStack (stackname : String) (stack_yaml : Dict) : Dict :=
  pySet stack_yaml "defaultrule_policyset_id" (.str (derivedDefaultName stackname))

/-- The fixed default-set name the Performance stack step looks up instead
of deriving one from the stack's own name. -/
def perfGlobalDefaultName : String := "Default Performance Policy Set (Simple)"

/-- Performance stack preparation: substitute the fresh ID of the
fixed-name shared default set when that set was touched this run; the
field is otherwise left untouched, and it is set to an ID, never to a
derived name. -/
def perfStackDefaultSwap (fresh_id_map : List (String × String)) (stack_yaml : Dict) : Dict :=
  match tlookup fresh_id_map perfGlobalDefaultName with
  | some fid => pySet stack_yaml "defaultrule_policyset_id" (.str fid)
  | none => stack_yaml

/-! ### Generic association stores (remote-store state) -/

/-- Lookup in a string-keyed association list. -/
def aget {α : Type} : List (String × α) → String → Option α
  | [], _ => none
  | (k, v) :: rest, key => if k = key then some v else aget rest key

/-- Insert/overwrite in a string-keyed association list. -/
def aset {α : Type} : List (String × α) → String → α → List (String × α)
  | [], key, v => [(key, v)]
  | (k, w) :: rest, key, v =>
      if k = key then (k, v) :: rest else (k, w) :: aset rest key v

/-- A write call issued against the remote store; read calls are answered
from the store state and carry no reconciliation content of their own. -/
inductive Call where
  | post : String → Value → Call
  | put : String → String → Value → Call
  | delete : String → String → Call

/-- Whether a call is a create. -/
def Call.isPost : Call → Bool
  | .post _ _ => true
  | _ => false

/-- Whether a call is an update. -/
def Call.isPut : Call → Bool
  | .put _ _ _ => true
  | _ => false

/-- Whether a call is a delete. -/
def Call.isDelete : Call → Bool
  | .delete _ _ => true
  | _ => false

/-- IDs handed out by the (always-successful) remote store on creation. -/
def freshId (n : Nat) : String := "new-id-" ++ toString n

/-- The store's rule tables: policy-set ID to its list of live rules. -/
abbrev RuleStore := List (String × List Value)

/-- Does this live rule carry the given ID? -/
def ruleIdIs : Value → String → Bool
  | .dict d, rid =>
      (match pyGet d "id" with
       | some (.str s) => s = rid
       | _ => false)
  | _, _ => false

/-- The live object the store materializes for a successful create: the
posted attributes (when they form a dict) carrying the fresh ID. -/
def createdObject (body : Value) (rid : String) : Value :=
  match body with
  | .dict rd => .dict (pySet rd "id" (.str rid))
  | _ => .dict [("id", .str rid)]

/-- Append a freshly created rule to a set's rule table. -/
def storeAppendRule (store : RuleStore) (sid : String) (r : Value) : RuleStore :=
  match aget store sid with
  | some rs => aset store sid (rs ++ [r])
  | none => aset store sid [r]

/-- Replace an updated rule in a set's rule table (the always-successful
store accepts every PUT, so a PUT against an ID not currently present
materializes the object — an upsert). -/
def storeReplaceRule (store : RuleStore) (sid rid : String) (body : Value) : RuleStore :=
  match aget store sid with
  | some rs =>
      if rs.any (fun r => ruleIdIs r rid) then
        aset store sid (rs.map (fun r => if ruleIdIs r rid then body else r))
      else aset store sid (rs ++ [body])
  | none => aset store sid [body]

/-- Remove a deleted rule from a set's rule table. -/
def storeRemoveRule (store : RuleStore) (sid rid : String) : RuleStore :=
  match aget store sid with
  | some rs => aset store sid (rs.filter (fun r => !(ruleIdIs r rid)))
  | none => store

/-- Index a set's live rules by `rule["name"]`, as the reconcilers do after
each rules read; `none` models the `KeyError` on a rule without a name. -/
def indexRulesByName (rules : List Value) : Option Dict :=
  rules.foldlM
    (fun acc r =>
      match r with
      | .dict rd =>
          match pyGet rd "name" with
          | some (.str nm) => some (pySet acc nm (.dict rd))
          | _ => none
      | _ => none)
    []

/-! ### Path rule/stack translation (`translate_rule` / `translate_stack`,
`PATH`/`N2ID`) -/

/-- The translation tables consulted by the Path branch of the
translators. -/
structure PathCatalog where
  nwcontext_name_id : List (String × String)
  nwglobalprefix_name_id : List (String × String)
  nwlocalprefix_name_id : List (String × String)
  servicelabel_name_id : List (String × String)
  app_name_id : List (String × String)
  label_name_label : List (String × String)

/-- Translate one scalar reference field against one table: a resolvable
string is replaced, anything else is left untouched.  `none` models the
`TypeError` from an unhashable (`list`/`dict`) value in the `in` test. -/
def transScalarField (t : List (String × String)) (rule : Dict) (f : String) : Option Dict :=
  match pyGet rule f with
  | some (.str s) =>
      (match tlookup t s with
       | some i => some (pySet rule f (.str i))
       | none => some rule)
  | some (.list _) => none
  | some (.dict _) => none
  | _ => some rule

/-- Translate one scalar reference field against a global table, falling
back to a local table. -/
def transScalarFieldGL (g l : List (String × String)) (rule : Dict) (f : String) : Option Dict :=
  match pyGet rule f with
  | some (.str s) =>
      (match tlookup g s with
       | some i => some (pySet rule f (.str i))
       | none =>
          match tlookup l s with
          | some i => some (pySet rule f (.str i))
          | none => some rule)
  | some (.list _) => none
  | some (.dict _) => none
  | _ => some rule

/-- Translate the two service-label references inside `service_context`;
the field is (re)assigned afterwards even when absent, so a rule without a
`service_context` gains one holding `None`.  `none` models the
`AttributeError` of `.get` on a non-dict value. -/
def transServiceContext (sl : List (String × String)) (rule : Dict) : Option Dict :=
  match pyGet rule "service_context" with
  | some (.dict scd) => do
      let scd1 ← transScalarField sl scd "active_service_label_id"
      let scd2 ← transScalarField sl scd1 "backup_service_label_id"
      some (pySet rule "service_context" (.dict scd2))
  | some .null => some (pySet rule "service_context" Value.null)
  | none => some (pySet rule "service_context" Value.null)
  | some _ => none

/-- Translate `app_def_ids` (shared loop shape across domains): resolvable
names become IDs, unresolved entries pass through with a warning.  `none`
models an unhashable entry, a non-list value being iterated, or the
`KeyError` from `rule["name"]` in the warning `print`. -/
def transAppsField (t : List (String × String)) (rule : Dict) : Option (Dict × List Value) :=
  match pyGet rule "app_def_ids" with
  | some (.list items) =>
      if allHashable items then
        let (out, ws) := transAppsList t items
        if !ws.isEmpty && (pyGet rule "name").isNone then none
        else some (pySet rule "app_def_ids" (.list out), ws)
      else none
  | some .null => some (rule, [])
  | none => some (rule, [])
  | some _ => none

/-- Translate the `label` of one path entry in `paths_allowed`; `none`
models the `AttributeError` of `.get` on a non-dict entry. -/
def transPathLabel (t : List (String × String)) (path : Value) : Option Value :=
  match path with
  | .dict pd =>
      (match pyGet pd "label" with
       | some (.str s) =>
           (match tlookup t s with
            | some lb => some (.dict (pySet pd "label" (.str lb)))
            | none => some (.dict pd))
       | some (.list _) => none
       | some (.dict _) => none
       | _ => some (.dict pd))
  | _ => none

/-- The translated contents of one `paths_allowed` sub-list; an absent or
null sub-list is replaced by an empty one (the source assigns the collected
list unconditionally). -/
def transPathsList (t : List (String × String)) (v : Value) : Option (List Value) :=
  match v with
  | .list paths => mapOptList (transPathLabel t) paths
  | .null => some []
  | _ => none

/-- Translate and reassign one `paths_allowed` sub-list. -/
def transPathsAllowedKey (t : List (String × String)) (pa : Dict) (key : String) :
    Option Dict := do
  let names ← transPathsList t ((pyGet pa key).getD .null)
  some (pySet pa key (.list names))

/-- Translate the three label lists inside `paths_allowed`; the field is
(re)assigned afterwards even when absent. -/
def transPathsAllowed (t : List (String × String)) (rule : Dict) : Option Dict :=
  match pyGet rule "paths_allowed" with
  | some (.dict pa) => do
      let pa1 ← transPathsAllowedKey t pa "active_paths"
      let pa2 ← transPathsAllowedKey t pa1 "backup_paths"
      let pa3 ← transPathsAllowedKey t pa2 "l3_failure_paths"
      some (pySet rule "paths_allowed" (.dict pa3))
  | some .null => some (pySet rule "paths_allowed" Value.null)
  | none => some (pySet rule "paths_allowed" Value.null)
  | some _ => none

/-- `translate_rule(rule, PATH, N2ID)`: network context, the two prefixes,
`service_context`, `app_def_ids` (with pass-through warnings) and the
`paths_allowed` labels. -/
def translateRulePathN2ID (cat : PathCatalog) (rule : Dict) :
    Option (Dict × List Value) := do
  let r1 ← transScalarField cat.nwcontext_name_id rule "network_context_id"
  let r2 ← transScalarFieldGL cat.nwglobalprefix_name_id cat.nwlocalprefix_name_id
    r1 "source_prefixes_id"
  let r3 ← transScalarFieldGL cat.nwglobalprefix_name_id cat.nwlocalprefix_name_id
    r2 "destination_prefixes_id"
  let r4 ← transServiceContext cat.servicelabel_name_id r3
  let (r5, ws) ← transAppsField cat.app_name_id r4
  let r6 ← transPathsAllowed cat.label_name_label r5
  some (r6, ws)

/-- `translate_stack(stack, N2ID)`: resolve the default-set reference and
keep only the resolvable member-set names.  The collected-IDs reassignment
`stack["policyset_ids"] = policset_ids` (line 1679) sits outside the
`is not None` guard, so a null or absent member list becomes `[]`; a string
or dict reference is iterated (characters / keys), a number or bool raises.
The four domain branches share this shape; the set table passed in is the
domain's module-level `*policyset_name_id` dict (which Path set creation
updates, but NAT set creation does not — the NAT flow shadows the global
with a local). -/
def translateStackN2ID (setNameId : List (String × String)) (stack : Dict) :
    Option Dict := do
  let s1 ← transScalarField setNameId stack "defaultrule_policyset_id"
  match pyGet s1 "policyset_ids" with
  | some (.list names) =>
      if allHashable names then
        some (pySet s1 "policyset_ids" (.list ((filterResolved setNameId names).map .str)))
      else none
  | some .null => some (pySet s1 "policyset_ids" (.list []))
  | none => some (pySet s1 "policyset_ids" (.list []))
  | some (.str s) =>
      some (pySet s1 "policyset_ids" (.list
        ((filterResolved setNameId (s.toList.map (fun c => .str c.toString))).map .str)))
  | some (.dict d) =>
      some (pySet s1 "policyset_ids" (.list
        ((filterResolved setNameId (d.map (fun kv => .str kv.1))).map .str)))
  | some _ => none

/-! ### The Path reconciliation flow (`push_policy_path`) -/

/-- State of a Path run: the catalog snapshot taken by
`create_global_dicts_path` (the `*_name_config` dicts are never refreshed
during the run; the `nwpolicyset_name_id`/`id_name` maps are extended when
sets are created), plus the remote store's rule tables and its fresh-ID
counter. -/
structure PathState where
  cat : PathCatalog
  nwpolicyset_name_id : List (String × String)
  nwpolicyset_id_name : List (String × String)
  nwpolicyset_name_config : Dict
  nwpolicystack_name_config : Dict
  rulesBySet : RuleStore
  nextId : Nat

/-- Accumulator threaded through the Path loops. -/
structure PathAcc where
  trace : List Call
  store : RuleStore
  nextId : Nat
  setNameId : List (String × String)
  setIdName : List (String × String)

/-- One desired Path rule against an existing set: translate, normalize
empty containers, then update (when the differ reports changes), skip, or
create. -/
def pathProcessRule (cat : PathCatalog) (sid : String) (rules_ctrl : Dict)
    (acc : PathAcc) (entry : String × Value) : Option PathAcc := do
  let (_rulename, rv) := entry
  match rv with
  | .dict rd =>
      let (tr, _ws) ← translateRulePathN2ID cat rd
      let ur ← update_rule tr
      match pyGet rules_ctrl entry.1 with
      | some rctrlv =>
          if (compareconf (.dict ur) rctrlv).isEmpty then some acc
          else
            match rctrlv with
            | .dict rctrl =>
                let ruledata := update_payload ur rctrl
                match pyGet ruledata "id" with
                | some (.str rid) =>
                    some { acc with
                      trace := acc.trace ++ [.put "networkpolicyrules" rid (.dict ruledata)],
                      store := storeReplaceRule acc.store sid rid (.dict ruledata) }
                | _ => none
            | _ => none
      | none =>
          let rid := freshId acc.nextId
          some { acc with
            trace := acc.trace ++ [.post "networkpolicyrules" (.dict ur)],
            nextId := acc.nextId + 1,
            store := storeAppendRule acc.store sid (.dict (pySet ur "id" (.str rid))) }
  | _ => none

/-- One desired Path rule under a just-created set: translate, normalize,
create. -/
def pathCreateRule (cat : PathCatalog) (sid : String)
    (acc : PathAcc) (entry : String × Value) : Option PathAcc := do
  let (_rulename, rv) := entry
  match rv with
  | .dict rd =>
      let (tr, _ws) ← translateRulePathN2ID cat rd
      let ur ← update_rule tr
      let rid := freshId acc.nextId
      some { acc with
        trace := acc.trace ++ [.post "networkpolicyrules" (.dict ur)],
        nextId := acc.nextId + 1,
        store := storeAppendRule acc.store sid (.dict (pySet ur "id" (.str rid))) }
  | _ => none

/-- One desired Path set: create or update the set attributes, reconcile
its rules, delete orphaned rules. -/
def pathReconcileSet (cat : PathCatalog) (setsByName : Dict)
    (acc : PathAcc) (entry : String × Value) : Option PathAcc := do
  let (name, syv) := entry
  match syv with
  | .dict sy0 =>
      let rulesYaml? ←
        match extractfromyaml sy0 NETWORK_POLICY_RULES with
        | .error _ => none
        | .ok r => some r
      let sy1 := pyDel sy0 NETWORK_POLICY_RULES
      match pyGet setsByName name with
      | some ctrlv =>
          -- existing set: diff and update
          let acc1 ←
            if (compareconf (.dict sy1) ctrlv).isEmpty then some acc
            else
              match ctrlv with
              | .dict ctrl =>
                  let data := update_payload sy1 ctrl
                  match pyGet data "id" with
                  | some (.str did) =>
                      some { acc with
                        trace := acc.trace ++ [.put "networkpolicysets" did (.dict data)] }
                  | _ => none
              | _ => none
          -- read this set's live rules and index them by name
          let sid ←
            match ctrlv with
            | .dict ctrl =>
                match pyGet ctrl "id" with
                | some (.str sid) => some sid
                | _ => none
            | _ => none
          let rules_ctrl ← indexRulesByName ((aget acc1.store sid).getD [])
          let rules_yaml ← rulesYaml?
          let acc2 ← rules_yaml.foldlM (pathProcessRule cat sid rules_ctrl) acc1
          -- delete orphaned rules
          rules_ctrl.foldlM
            (fun a kv =>
              if containsKey rules_yaml kv.1 then some a
              else
                match kv.2 with
                | .dict rd =>
                    match pyGet rd "id" with
                    | some (.str rid) =>
                        some { a with
                          trace := a.trace ++ [.delete "networkpolicyrules" rid],
                          store := storeRemoveRule a.store sid rid }
                    | _ => none
                | _ => none)
            acc2
      | none =>
          -- new set: create, remember the fresh ID, create its rules
          let sid := freshId acc.nextId
          let acc1 : PathAcc :=
            { acc with
              trace := acc.trace ++ [.post "networkpolicysets" (.dict sy1)],
              nextId := acc.nextId + 1,
              setNameId := tset acc.setNameId name sid,
              setIdName := tset acc.setIdName sid name }
          let rules_yaml ← rulesYaml?
          rules_yaml.foldlM (pathCreateRule cat sid) acc1
  | _ => none

/-- One desired Path stack: force the derived default-set name, translate,
normalize an empty member list, then create or update. -/
def pathReconcileStack (stacksByName : Dict)
    (acc : PathAcc) (entry : String × Value) : Option PathAcc := do
  let (name, stv) := entry
  match stv with
  | .dict sty0 =>
      let sty1 := pathPrepareStack name sty0
      let t ← translateStackN2ID acc.setNameId sty1
      let prepared ← update_stack t
      match pyGet stacksByName name with
      | some ctrlv =>
          if (compareconf (.dict prepared) ctrlv).isEmpty then some acc
          else
            match ctrlv with
            | .dict ctrl =>
                let data := update_payload prepared ctrl
                match pyGet data "id" with
                | some (.str did) =>
                    some { acc with
                      trace := acc.trace ++ [.put "networkpolicysetstacks" did (.dict data)] }
                | _ => none
            | _ => none
      | none =>
          some { acc with
            trace := acc.trace ++ [.post "networkpolicysetstacks" (.dict prepared)] }
  | _ => none

/-- The Path deletion pass over one snapshot: delete every object absent
from the desired document.  There is no default-flag guard here, unlike the
cleanup passes of the QoS, NAT, Security and Performance flows. -/
def pathDeletePass (endpoint : String) (snapshot desired : Dict) (tr : List Call) :
    Option (List Call) :=
  snapshot.foldlM
    (fun t kv =>
      if containsKey desired kv.1 then some t
      else
        match kv.2 with
        | .dict dd =>
            match pyGet dd "id" with
            | some (.str i) => some (t ++ [.delete endpoint i])
            | _ => none
        | _ => none)
    tr

/-- `push_policy_path(cgx_session, loaded_config)`: reconcile Path sets
(with their rules), then Path stacks, then delete stacks and sets absent
from the desired document.  `none` models an uncaught exception aborting
the run — in particular `extractfromyaml` returning `None` for a missing
document key makes the subsequent `.keys()` call raise. -/
def pushPolicyPath (st : PathState) (loaded_config : Dict) :
    Option (List Call × PathState) := do
  let setsYaml ←
    match extractfromyaml loaded_config NETWORK_POLICY_SETS with
    | .error _ => none
    | .ok none => none
    | .ok (some d) => some d
  let acc0 : PathAcc :=
    { trace := [], store := st.rulesBySet, nextId := st.nextId,
      setNameId := st.nwpolicyset_name_id, setIdName := st.nwpolicyset_id_name }
  let acc1 ← setsYaml.foldlM (pathReconcileSet st.cat st.nwpolicyset_name_config) acc0
  let stacksYaml ←
    match extractfromyaml loaded_config NETWORK_POLICY_STACKS with
    | .error _ => none
    | .ok none => none
    | .ok (some d) => some d
  let acc2 ← stacksYaml.foldlM (pathReconcileStack st.nwpolicystack_name_config) acc1
  let tr3 ← pathDeletePass "networkpolicysetstacks" st.nwpolicystack_name_config stacksYaml
    acc2.trace
  let tr4 ← pathDeletePass "networkpolicysets" st.nwpolicyset_name_config setsYaml tr3
  some (tr4,
    { st with
      nwpolicyset_name_id := acc2.setNameId,
      nwpolicyset_id_name := acc2.setIdName,
      rulesBySet := acc2.store,
      nextId := acc2.nextId })

/-! ### NAT rule/stack translation and the NAT flow (`push_policy_nat`) -/

/-- `NATACTIONS_name_enum`. -/
def NATACTIONS_name_enum : List (String × String) :=
  [("No NAT", "no_nat"),
   ("Source NAT", "source_nat_dynamic"),
   ("Destination NAT", "destination_nat_dynamic"),
   ("Static Source NAT", "source_nat_static"),
   ("Static Destination NAT", "destination_nat_static"),
   ("ALG Disable", "alg_disable")]

/-- The translation tables consulted by the NAT branches of the
translators.  `natpolicyset_name_id` is the module-level dict built by
`create_global_dicts_nat`; `push_policy_nat` shadows it with local maps for
the ID handshake, so `translate_stack` still reads this (stale) global. -/
structure NatCatalog where
  natglobalprefix_name_id : List (String × String)
  natlocalprefix_name_id : List (String × String)
  natzone_name_id : List (String × String)
  natpool_name_id : List (String × String)
  natpolicyset_name_id : List (String × String)

/-- Translate one NAT action: the `nat_pool_id` reference, then the
mandatory `type` enum.  `.error` carries the action as mutated up to the
raise (`KeyError` on a missing/unknown `type`, `TypeError` on an unhashable
`nat_pool_id`, `AttributeError` on a non-dict action). -/
def natActTrans (pool enum : List (String × String)) (act : Value) : Except Value Value :=
  match act with
  | .dict ad =>
      (match transScalarField pool ad "nat_pool_id" with
       | none => .error act
       | some ad1 =>
          match pyGet ad1 "type" with
          | some (.str ty) =>
              (match tlookup enum ty with
               | some e => .ok (.dict (pySet ad1 "type" (.str e)))
               | none => .error (.dict ad1))
          | _ => .error (.dict ad1))
  | v => .error v

/-- Translate a NAT action list; `.error` carries the list as mutated up to
the raise (the source mutates the shared action objects in place, so a
mid-loop exception leaves a partially translated list behind). -/
def natActsTransList (pool enum : List (String × String)) :
    List Value → Except (List Value) (List Value)
  | [] => .ok []
  | a :: rest =>
      match natActTrans pool enum a with
      | .ok a1 =>
          (match natActsTransList pool enum rest with
           | .ok rs => .ok (a1 :: rs)
           | .error rs => .error (a1 :: rs))
      | .error a1 => .error (a1 :: rest)

/-- `translate_rule(rule, "nat", N2ID)` under the caller's
`try: ... except: pass`: the result is the rule carrying every in-place
mutation made before a raise (or all of them on success) — prefix and zone
scalars, then the `actions` list. -/
def translateRuleNatN2ID (cat : NatCatalog) (rule : Dict) : Dict :=
  match transScalarFieldGL cat.natglobalprefix_name_id cat.natlocalprefix_name_id
      rule "source_prefixes_id" with
  | none => rule
  | some r1 =>
      match transScalarFieldGL cat.natglobalprefix_name_id cat.natlocalprefix_name_id
          r1 "destination_prefixes_id" with
      | none => r1
      | some r2 =>
          match transScalarField cat.natzone_name_id r2 "source_zone_id" with
          | none => r2
          | some r3 =>
              match transScalarField cat.natzone_name_id r3 "destination_zone_id" with
              | none => r3
              | some r4 =>
                  match pyGet r4 "actions" with
                  | some (.list acts) =>
                      (match natActsTransList cat.natpool_name_id NATACTIONS_name_enum acts with
                       | .ok acts1 => pySet r4 "actions" (.list acts1)
                       | .error acts1 => pySet r4 "actions" (.list acts1))
                  | _ => r4

/-- The local name/ID maps `push_policy_nat` threads through its run (the
"ID handshake" shadowing the module-level dicts). -/
structure NatLocals where
  fresh_id_map : List (String × String)
  setIdName : List (String × String)
  setNameId : List (String × String)

/-- Accumulator threaded through the NAT set/stack loops.  `setsLive` and
`stacksLive` are the live objects as the always-successful store will hand
them to a later run (writes are applied there as they are issued; the run
itself keeps reading the run-start snapshots, as the source only builds its
`*_name_config` dicts once). -/
structure NatAcc where
  trace : List Call
  store : RuleStore
  nextId : Nat
  locals : NatLocals
  setsLive : Dict
  stacksLive : Dict

/-- Accumulator of the per-set rules loop: it additionally collects
`nat_rule_name_id` (names of successfully written rules to their IDs) and
`rule_names_in_yaml`. -/
structure NatRuleAcc where
  trace : List Call
  store : RuleStore
  nextId : Nat
  map : List (String × String)
  names : List String

/-- The rule body of one desired NAT entry after `translate_rule`
(exceptions swallowed by the caller's bare `except: pass`). -/
def translateNatEntryRule (cat : NatCatalog) (rdv : Value) : Value :=
  match rdv with
  | .dict rd => .dict (translateRuleNatN2ID cat rd)
  | v => v

/-- The differ found no change: skip the write, record the live rule's ID
in `nat_rule_name_id`. -/
def natRuleSkip (acc : NatRuleAcc) (rn : String) (rctrlv : Value) : Option NatRuleAcc :=
  match rctrlv with
  | .dict rctrl =>
      (match pyGet rctrl "id" with
       | some (.str rid) =>
          some { acc with names := acc.names ++ [rn], map := tset acc.map rn rid }
       | _ => none)
  | _ => none

/-- The differ reported changes: merge desired onto live and PUT the
payload, recording the (live) ID it carries. -/
def natRuleUpdate (rulesEndpoint : String) (sid : String) (acc : NatRuleAcc)
    (rn : String) (rd1 rctrlv : Value) : Option NatRuleAcc :=
  match rd1, rctrlv with
  | .dict rd, .dict rctrl =>
      let payload := update_payload rd rctrl
      (match pyGet payload "id" with
       | some (.str rid) =>
          some { acc with
            trace := acc.trace ++ [.put rulesEndpoint rid (.dict payload)],
            store := storeReplaceRule acc.store sid rid (.dict payload),
            names := acc.names ++ [rn], map := tset acc.map rn rid }
       | _ => none)
  | _, _ => none

/-- No live rule of that name: POST the translated rule and record the
fresh ID the store hands back. -/
def natRuleCreate (rulesEndpoint : String) (sid : String) (acc : NatRuleAcc)
    (rn : String) (rd1 : Value) : NatRuleAcc :=
  let rid := freshId acc.nextId
  { acc with
    trace := acc.trace ++ [.post rulesEndpoint rd1],
    nextId := acc.nextId + 1,
    store := storeAppendRule acc.store sid (createdObject rd1 rid),
    names := acc.names ++ [rn], map := tset acc.map rn rid }

/-- One desired rule of the shared NAT/Performance rules-loop shape (the
two loops are textually identical up to endpoints and per-rule
preparation): take the entry's first key as the name, translate, then
update (when the differ reports changes), skip while recording the live
ID, or create while recording the fresh ID.  A `none` from the preparation
is an uncaught exception aborting the run. -/
def processRuleN2ID (translateEntry : Value → Option Value) (rulesEndpoint : String)
    (sid : String) (rules_ctrl : Dict) (acc : NatRuleAcc) (entry : Value) :
    Option NatRuleAcc :=
  match entry with
  | .dict ((rn, rdv) :: _) =>
      (match translateEntry rdv with
       | some rd1 =>
          (match pyGet rules_ctrl rn with
           | some rctrlv =>
              if (compareconf rd1 rctrlv).isEmpty then natRuleSkip acc rn rctrlv
              else natRuleUpdate rulesEndpoint sid acc rn rd1 rctrlv
           | none => some (natRuleCreate rulesEndpoint sid acc rn rd1))
       | none => none)
  | _ => none

/-- One desired NAT rule (the NAT instance of the shared loop shape; the
NAT preparation never raises — its `translate_rule` call sits under
`try: ... except: pass`). -/
def natProcessRule (cat : NatCatalog) (sid : String) (rules_ctrl : Dict)
    (acc : NatRuleAcc) (entry : Value) : Option NatRuleAcc :=
  processRuleN2ID (fun v => some (translateNatEntryRule cat v)) "natpolicyrules"
    sid rules_ctrl acc entry

/-- The order-finalize comprehension: keep (translated) exactly the order
entries whose name resolved to an ID this run; raw names never pass
through. -/
def natFinalizeIds (m : List (String × String)) (order : Value) : Option (List String) :=
  match order with
  | .list l =>
      if allHashable l then
        some (l.filterMap (fun v => match v with | .str nm => tlookup m nm | _ => none))
      else none
  | _ => some []

/-- The rule entries of one desired NAT set: a dict becomes a list of
single-key wrappers, a list is taken as is; `none` models iterating any
other value. -/
def natRulesYamlList (raw : Value) : Option (List Value) :=
  match raw with
  | .dict d => some (d.map (fun kv => Value.dict [kv]))
  | .list l => some l
  | _ => none

/-- The NAT set payload after splitting off rules, nulling the two order
fields and wiping `clone_from`. -/
def natPrepSet (sy0 : Dict) : Dict :=
  pySet (pySet (pySet (pyDel sy0 "natpolicyrules")
    "destination_zone_policyrule_order" .null)
    "source_zone_policyrule_order" .null)
    "clone_from" .null

/-- One step of the orphaned-rule cleanup shared by the NAT and
Performance set steps: delete the live rule unless its name was seen in
the desired rule list. -/
def orphanStep (rulesEndpoint : String) (sid : String) (names : List String)
    (p : List Call × RuleStore) (kv : String × Value) : Option (List Call × RuleStore) :=
  if names.contains kv.1 then some p
  else
    match kv.2 with
    | .dict rd =>
        (match pyGet rd "id" with
         | some (.str rid) =>
            some (p.1 ++ [.delete rulesEndpoint rid], storeRemoveRule p.2 sid rid)
         | _ => none)
    | _ => none

/-- The NAT instance of the orphaned-rule cleanup. -/
def natOrphanStep (sid : String) (names : List String)
    (p : List Call × RuleStore) (kv : String × Value) : Option (List Call × RuleStore) :=
  orphanStep "natpolicyrules" sid names p kv

/-- How the always-successful store applies a PUT against a set- or
stack-level object keyed by name: merge the payload attributes into the
live object (creating it from the payload when the name is unknown). -/
def applyObjPut (live : Dict) (name : String) (body : Dict) : Dict :=
  match pyGet live name with
  | some (.dict cur) => pySet live name (.dict (update_payload body cur))
  | _ => pySet live name (.dict body)

/-- The rules phase of one NAT set (after the set object itself was
created or updated, `acc1` carrying that write): reconcile the desired
rules against the (re-read) live rules, re-issue the narrow dual-order
update whenever a desired order list is truthy, then delete orphaned
rules. -/
def natSetRulesPhase (cat : NatCatalog) (sid natsetname : String) (sy0 : Dict)
    (rules_yaml_list : List Value) (acc1 : NatAcc) : Option NatAcc := do
  let sy1 := pyDel sy0 "natpolicyrules"
  let dst_order := (pyGet sy1 "destination_zone_policyrule_order").getD (.list [])
  let src_order := (pyGet sy1 "source_zone_policyrule_order").getD (.list [])
  let rules_ctrl ← indexRulesByName ((aget acc1.store sid).getD [])
  let racc0 : NatRuleAcc :=
    { trace := acc1.trace, store := acc1.store, nextId := acc1.nextId,
      map := [], names := [] }
  let racc ← rules_yaml_list.foldlM (natProcessRule cat sid rules_ctrl) racc0
  let (trF, liveF) ←
    if pyTruthy dst_order || pyTruthy src_order then do
      let valid_dst ← if pyTruthy dst_order then natFinalizeIds racc.map dst_order else some []
      let valid_src ← if pyTruthy src_order then natFinalizeIds racc.map src_order else some []
      let fbody : Dict :=
        [("id", .str sid),
         ("destination_zone_policyrule_order", .list (valid_dst.map .str)),
         ("source_zone_policyrule_order", .list (valid_src.map .str))]
      some (racc.trace ++ [.put "natpolicysets" sid (.dict fbody)],
        applyObjPut acc1.setsLive natsetname fbody)
    else some (racc.trace, acc1.setsLive)
  let (trD, storeD) ← rules_ctrl.foldlM (natOrphanStep sid racc.names) (trF, racc.store)
  some { trace := trD
         store := storeD
         nextId := racc.nextId
         locals := acc1.locals
         setsLive := liveF
         stacksLive := acc1.stacksLive }

/-- One desired NAT set: split off rules and the two order lists, wipe
`clone_from`, create or update the set, then run the rules phase.  Writes
against the set object are applied to `setsLive`, the snapshot a later run
will read. -/
def natReconcileSet (cat : NatCatalog) (setsByName : Dict)
    (acc : NatAcc) (entry : String × Value) : Option NatAcc := do
  let (natsetname, syv) := entry
  match syv with
  | .dict sy0 =>
      let raw_rules := (pyGet sy0 "natpolicyrules").getD (.list [])
      let rules_yaml_list ← natRulesYamlList raw_rules
      let sy3 := natPrepSet sy0
      let (sid, acc1) ←
        match pyGet setsByName natsetname with
        | some ctrlv => do
            let sid ←
              match ctrlv with
              | .dict ctrl =>
                  (match pyGet ctrl "id" with
                   | some (.str s) => some s
                   | _ => none)
              | _ => none
            let L1 : NatLocals :=
              { fresh_id_map := tset acc.locals.fresh_id_map natsetname sid,
                setIdName := tset acc.locals.setIdName sid natsetname,
                setNameId := tset acc.locals.setNameId natsetname sid }
            if (compareconf (.dict sy3) ctrlv).isEmpty then
              some (sid, { acc with locals := L1 })
            else
              match ctrlv with
              | .dict ctrl =>
                  let data := update_payload sy3 ctrl
                  let data2 := pyDel (pyDel data "destination_zone_policyrule_order")
                    "source_zone_policyrule_order"
                  some (sid,
                    { acc with
                      locals := L1,
                      trace := acc.trace ++ [.put "natpolicysets" sid (.dict data2)],
                      setsLive := applyObjPut acc.setsLive natsetname data2 })
              | _ => none
        | none =>
            let sid := freshId acc.nextId
            some (sid,
              { acc with
                trace := acc.trace ++ [.post "natpolicysets" (.dict sy3)],
                nextId := acc.nextId + 1,
                locals :=
                  { fresh_id_map := tset acc.locals.fresh_id_map natsetname sid,
                    setIdName := tset acc.locals.setIdName sid natsetname,
                    setNameId := tset acc.locals.setNameId natsetname sid },
                setsLive := pySet acc.setsLive natsetname
                  (createdObject (.dict sy3) sid) })
      natSetRulesPhase cat sid natsetname sy0 rules_yaml_list acc1
  | _ => none

/-- The NAT stack ID swap ("GOLDEN RULE 3"): map each member entry through
the run-local `natpolicyset_id_name` and `fresh_id_map`; entries that match
neither are kept.  The default-set reference is not touched. -/
def natStackSwapPolicySets (L : NatLocals) (stack_yaml : Dict) : Dict :=
  match pyGet stack_yaml "policyset_ids" with
  | some v =>
      if pyTruthy v then
        match v with
        | .list items =>
            pySet stack_yaml "policyset_ids" (.list (items.map (fun it =>
              let itemName : Value :=
                match it with
                | .str s =>
                    (match tlookup L.setIdName s with
                     | some nm => .str nm
                     | none => it)
                | _ => it
              match itemName with
              | .str nm =>
                  (match tlookup L.fresh_id_map nm with
                   | some fid => .str fid
                   | none => itemName)
              | _ => itemName)))
        | _ => stack_yaml
      else stack_yaml
  | none => stack_yaml

/-- The prepared form of one desired NAT stack: swap member-set IDs, then
translate and normalize under `try/except` (a raise keeps the stack as
mutated so far). -/
def natStackPrepared (cat : NatCatalog) (L : NatLocals) (sty0 : Dict) : Dict :=
  let sty1 := natStackSwapPolicySets L sty0
  match translateStackN2ID cat.natpolicyset_name_id sty1 with
  | some t => (update_stack t).getD t
  | none => sty1

/-- One desired NAT stack: swap member-set IDs, translate and normalize
under `try/except`, then create or update.  Writes against the stack
object are applied to `stacksLive`. -/
def natReconcileStack (cat : NatCatalog) (stacksByName : Dict)
    (acc : NatAcc) (entry : String × Value) : Option NatAcc :=
  let (name, stv) := entry
  match stv with
  | .dict sty0 =>
      let prepared := natStackPrepared cat acc.locals sty0
      (match pyGet stacksByName name with
       | some ctrlv =>
          if (compareconf (.dict prepared) ctrlv).isEmpty then some acc
          else
            match ctrlv with
            | .dict ctrl =>
                let data := update_payload prepared ctrl
                (match pyGet data "id" with
                 | some (.str did) =>
                    some { acc with
                      trace := acc.trace ++ [.put "natpolicysetstacks" did (.dict data)],
                      stacksLive := applyObjPut acc.stacksLive name data }
                 | _ => none)
            | _ => none
       | none =>
          some { acc with
            trace := acc.trace ++ [.post "natpolicysetstacks" (.dict prepared)],
            nextId := acc.nextId + 1,
            stacksLive := pySet acc.stacksLive name
              (createdObject (.dict prepared) (freshId acc.nextId)) })
  | _ => none

/-- A guarded cleanup pass ("Safety Shields"): skip default-flagged
objects, delete the rest when absent from the desired document.  Deletions
are also applied to the carried live snapshot a later run will read. -/
def guardedDeletePass (endpoint flagKey : String) (snapshot desired : Dict)
    (tr : List Call) (live : Dict) : Option (List Call × Dict) :=
  snapshot.foldlM
    (fun (p : List Call × Dict) kv =>
      match kv.2 with
      | .dict dd =>
          (match pyGet dd flagKey with
           | some (.bool true) => some p
           | _ =>
              if containsKey desired kv.1 then some p
              else
                match pyGet dd "id" with
                | some (.str i) => some (p.1 ++ [.delete endpoint i], pyDel p.2 kv.1)
                | _ => none)
      | _ => none)
    (tr, live)

/-- State of a NAT run: catalog and live-object snapshots plus the remote
store's rule tables. -/
structure NatState where
  cat : NatCatalog
  natpolicyset_name_config : Dict
  natpolicystack_name_config : Dict
  rulesBySet : RuleStore
  nextId : Nat

/-- `push_policy_nat(cgx_session, loaded_config)`: reconcile NAT sets (with
rules and the dual order finalize), then NAT stacks, then the two guarded
cleanup passes.  A missing document key yields `None`, which the `if not`
guards turn into an empty dict.  The returned state carries every write of
the run: rule writes in the rule tables, set/stack writes and deletions in
the live `*_name_config` snapshots a later run reads. -/
def pushPolicyNat (st : NatState) (loaded_config : Dict) :
    Option (List Call × NatState) := do
  let setsYaml ←
    match extractfromyaml loaded_config NAT_POLICY_SETS with
    | .error _ => none
    | .ok none => some []
    | .ok (some d) => some d
  let acc0 : NatAcc :=
    { trace := [], store := st.rulesBySet, nextId := st.nextId,
      locals := { fresh_id_map := [], setIdName := [], setNameId := [] },
      setsLive := st.natpolicyset_name_config,
      stacksLive := st.natpolicystack_name_config }
  let acc1 ← setsYaml.foldlM (natReconcileSet st.cat st.natpolicyset_name_config) acc0
  let stacksYaml ←
    match extractfromyaml loaded_config NAT_POLICY_STACKS with
    | .error _ => none
    | .ok none => some []
    | .ok (some d) => some d
  let acc2 ← stacksYaml.foldlM (natReconcileStack st.cat st.natpolicystack_name_config) acc1
  let (tr3, stacksLive3) ← guardedDeletePass "natpolicysetstacks" "default_policysetstack"
    st.natpolicystack_name_config stacksYaml acc2.trace acc2.stacksLive
  let (tr4, setsLive4) ← guardedDeletePass "natpolicysets" "defaultrule_policyset"
    st.natpolicyset_name_config setsYaml tr3 acc2.setsLive
  some (tr4,
    { st with
      natpolicyset_name_config := setsLive4,
      natpolicystack_name_config := stacksLive3,
      rulesBySet := acc2.store,
      nextId := acc2.nextId })

mutual

/-- Equality `beqV` is reflexive. -/
theorem beqV_refl : ∀ v : Value, beqV v v = true
  | .null => rfl
  | .bool b => by simp [beqV]
  | .num n => by simp [beqV]
  | .str s => by simp [beqV]
  | .list l => by simp [beqV, beqL_refl l]
  | .dict d => by simp [beqV, beqD_refl d]

/-- Equality `beqL` is reflexive. -/
theorem beqL_refl : ∀ l : List Value, beqL l l = true
  | [] => rfl
  | a :: as => by simp [beqL, beqV_refl a, beqL_refl as]

/-- Equality `beqD` is reflexive. -/
theorem beqD_refl : ∀ d : Dict, beqD d d = true
  | [] => rfl
  | (k, v) :: rest => by simp [beqD, beqV_refl v, beqD_refl rest]

end

/-- A key bound in a dict is reported present. -/
theorem containsKey_of_mem : ∀ {d : Dict} {p : String × Value}, p ∈ d → containsKey d p.1 = true := by
  intro d p h
  induction d with
  | nil => simp at h
  | cons q rest ih =>
    obtain ⟨qk, qv⟩ := q
    rcases List.mem_cons.mp h with h | hmem
    · subst h; simp [containsKey, pyGet]
    · by_cases hk : qk = p.1
      · simp [containsKey, pyGet, hk]
      · simpa [containsKey, pyGet, hk] using ih hmem

/-- An absent key has no binding. -/
theorem pyGet_eq_none_of_not_contains {d : Dict} {k : String}
    (h : containsKey d k = false) : pyGet d k = none := by
  unfold containsKey at h
  cases hg : pyGet d k with
  | none => rfl
  | some v => rw [hg] at h; simp at h

/-- With distinct keys, every binding is found by lookup. -/
theorem pyGet_of_mem_nodup : ∀ {d : Dict} {p : String × Value},
    nodupKeys d = true → p ∈ d → pyGet d p.1 = some p.2 := by
  intro d p hnd h
  induction d with
  | nil => simp at h
  | cons q rest ih =>
    obtain ⟨qk, qv⟩ := q
    have h1 : containsKey rest qk = false ∧ nodupKeys rest = true := by
      simpa [nodupKeys] using hnd
    rcases List.mem_cons.mp h with h | hmem
    · subst h; simp [pyGet]
    · have hne : qk ≠ p.1 := by
        intro e
        rw [e] at h1
        exact absurd (containsKey_of_mem hmem) (by simp [h1.1])
      simpa [pyGet, hne] using ih h1.2 hmem

/-- Setting a key makes it readable. -/
theorem pyGet_pySet_self : ∀ (d : Dict) (k : String) (v : Value),
    pyGet (pySet d k v) k = some v := by
  intro d k v
  induction d with
  | nil => simp [pySet, pyGet]
  | cons q rest ih =>
    obtain ⟨qk, qv⟩ := q
    by_cases hk : qk = k
    · simp [pySet, pyGet, hk]
    · simp [pySet, pyGet, hk, ih]

/-- Setting one key leaves other keys unchanged. -/
theorem pyGet_pySet_other : ∀ (d : Dict) (k : String) (v : Value) (k' : String),
    k' ≠ k → pyGet (pySet d k v) k' = pyGet d k' := by
  intro d k v k' hne
  induction d with
  | nil => simp [pySet, pyGet, Ne.symm hne]
  | cons q rest ih =>
    obtain ⟨qk, qv⟩ := q
    by_cases hk : qk = k
    · subst hk; simp [pySet, pyGet, Ne.symm hne]
    · by_cases hk' : qk = k'
      · subst hk'; simp [pySet, pyGet, hne, hk]
      · simp [pySet, pyGet, hk, hk', ih]

mutual

/-- `diff` of a well-formed value against itself yields no events. -/
theorem diffV_self : ∀ (v : Value) (node : List PKey), wfV v = true → diffV v v node = []
  | .null, node, _ => by simp [diffV, beqV]
  | .bool b, node, _ => by simp [diffV, beqV]
  | .num n, node, _ => by simp [diffV, beqV]
  | .str s, node, _ => by simp [diffV, beqV]
  | .list l, node, h => by
      have hl : wfL l = true := by simpa [wfV] using h
      simp [diffV, diffLInter_self l node 0 hl]
  | .dict d, node, h => by
      have h1 : nodupKeys d = true ∧ wfD d = true := by simpa [wfV] using h
      have hinter : diffDInter d d node = [] :=
        diffDInter_self d d node h1.2 (fun p hp => pyGet_of_mem_nodup h1.1 hp)
      have hfilter : d.filter (fun kv => !(containsKey d kv.1)) = [] := by
        rw [List.filter_eq_nil_iff]
        intro a ha
        simp [containsKey_of_mem ha]
      simp [diffV, hinter, hfilter]

/-- List half of `diffV_self`. -/
theorem diffLInter_self : ∀ (l : List Value) (node : List PKey) (i : Nat),
    wfL l = true → diffLInter l l node i = []
  | [], _, _, _ => rfl
  | a :: as, node, i, h => by
      have h1 : wfV a = true ∧ wfL as = true := by simpa [wfL] using h
      simp [diffLInter, diffV_self a (node ++ [PKey.i i]) h1.1,
        diffLInter_self as node (i + 1) h1.2]

/-- Dict half of `diffV_self`: when every entry of `f` is found unchanged in
`s`, the common-key recursion yields no events. -/
theorem diffDInter_self : ∀ (f s : Dict) (node : List PKey),
    wfD f = true → (∀ p ∈ f, pyGet s p.1 = some p.2) → diffDInter f s node = []
  | [], _, _, _, _ => rfl
  | (k, v) :: rest, s, node, h, hmem => by
      have hv : pyGet s k = some v := hmem (k, v) (List.mem_cons_self _ _)
      have h1 : wfV v = true ∧ wfD rest = true := by simpa [wfD] using h
      rw [diffDInter, hv]
      simp [diffV_self v (node ++ [PKey.s k]) h1.1,
        diffDInter_self rest s node h1.2 (fun p hp => hmem p (List.mem_cons_of_mem _ hp))]

end

/-- `compareconf` of a well-formed value against itself is empty. -/
theorem compareconf_self (v : Value) (h : wfV v = true) : compareconf v v = [] := by
  unfold compareconf
  rw [diffV_self v [] h]
  rfl

/-- The top-level component `compareconf` would extract from a node (the
part before the first `"."` of a dotted node, or the head of a path list);
`none` when the node is empty. -/
def nodeHead : NodeRep → Option PKey
  | .dstr comps =>
      if 2 ≤ comps.length then some (.s comps.headI)
      else if comps.headI = "" then none
      else some (.s comps.headI)
  | .dpath [] => none
  | .dpath (x :: _) => some x

/-- The head extracted from a nonempty dotted-string node is the first
component. -/
theorem nodeHead_dstr_cons : ∀ (a : String) (tl : List String) (x : PKey),
    nodeHead (.dstr (a :: tl)) = some x → x = PKey.s a := by
  intro a tl x h
  simp only [nodeHead] at h
  cases tl with
  | nil =>
    simp only [List.length_cons, List.length_nil, List.headI_cons] at h
    rw [if_neg (by omega)] at h
    by_cases ha : a = ""
    · rw [if_pos ha] at h; cases h
    · rw [if_neg ha] at h
      exact (Option.some_injective _ h).symm
  | cons b t =>
    rw [if_pos (by simp only [List.length_cons]; omega)] at h
    simpa using ((Option.some_injective _ h).symm : x = PKey.s (a :: b :: t).headI)

/-- The head extracted from a dotted nonempty path is the path's first
component. -/
theorem nodeHead_dotted : ∀ (p : PKey) (rest : List PKey) (x : PKey),
    nodeHead (dotted (p :: rest)) = some x → x = p := by
  intro p rest x h
  unfold dotted at h
  split at h
  · next hall =>
    cases p with
    | i n => simp [List.all_cons] at hall
    | s a =>
      simp only [List.map_cons] at h
      have := nodeHead_dstr_cons _ _ _ h
      simpa using this
  · simp only [nodeHead] at h
    exact (Option.some_injective _ h).symm

/-- A `ccStep` result extends the accumulator only by the node head. -/
theorem mem_ccStep : ∀ (acc : List PKey) (ev : DEvent) (y : PKey),
    y ∈ ccStep acc ev → y ∈ acc ∨ nodeHead ev.node = some y := by
  intro acc ev y h
  cases hn : ev.node with
  | dstr comps =>
    simp only [ccStep] at h
    rw [hn] at h
    dsimp only at h
    simp only [nodeHead, hn]
    by_cases hlen : 2 ≤ comps.length
    · rw [if_pos hlen] at h
      rw [if_pos hlen]
      by_cases hc : acc.contains (PKey.s comps.headI)
      · rw [if_pos hc] at h; exact Or.inl h
      · rw [if_neg hc] at h
        rcases List.mem_append.mp h with h1 | h1
        · exact Or.inl h1
        · simp at h1; subst h1; exact Or.inr rfl
    · rw [if_neg hlen] at h
      rw [if_neg hlen]
      by_cases hc : acc.contains (PKey.s comps.headI)
      · rw [if_pos hc] at h; exact Or.inl h
      · rw [if_neg hc] at h
        by_cases he : comps.headI = ""
        · rw [if_pos he] at h; exact Or.inl h
        · rw [if_neg he] at h
          rw [if_neg he]
          rcases List.mem_append.mp h with h1 | h1
          · exact Or.inl h1
          · simp at h1; subst h1; exact Or.inr rfl
  | dpath l =>
    simp only [ccStep] at h
    rw [hn] at h
    cases l with
    | nil =>
      dsimp only at h
      exact Or.inl h
    | cons x xs =>
      dsimp only at h
      simp only [nodeHead, hn]
      by_cases hc : acc.contains x
      · rw [if_pos hc] at h; exact Or.inl h
      · rw [if_neg hc] at h
        rcases List.mem_append.mp h with h1 | h1
        · exact Or.inl h1
        · simp at h1; subst h1; exact Or.inr rfl

/-- Folding `ccStep` only collects node heads of the event list. -/
theorem mem_foldl_ccStep : ∀ (evs : List DEvent) (acc : List PKey) (y : PKey),
    y ∈ evs.foldl ccStep acc → y ∈ acc ∨ ∃ ev ∈ evs, nodeHead ev.node = some y := by
  intro evs
  induction evs with
  | nil => intro acc y h; exact Or.inl h
  | cons e rest ih =>
    intro acc y h
    rcases ih _ y h with hacc | ⟨ev, hev, hh⟩
    · rcases mem_ccStep acc e y hacc with h1 | h2
      · exact Or.inl h1
      · exact Or.inr ⟨e, by simp, h2⟩
    · exact Or.inr ⟨ev, by simp [hev], hh⟩

/-- Every event yielded by `diff` carries a node extending the entry path. -/
theorem diffV_node_spec : ∀ (v w : Value) (node : List PKey) (ev : DEvent),
    ev ∈ diffV v w node → ∃ suffix, ev.node = dotted (node ++ suffix) := by
  intro v w node
  refine diffV.induct
    (fun v w node => ∀ ev, ev ∈ diffV v w node → ∃ suffix, ev.node = dotted (node ++ suffix))
    (fun f s node i => ∀ ev, ev ∈ diffLInter f s node i →
      ∃ suffix, ev.node = dotted (node ++ suffix))
    (fun f s node => ∀ ev, ev ∈ diffDInter f s node →
      ∃ suffix, ev.node = dotted (node ++ suffix))
    ?_ ?_ ?_ ?_ ?_ ?_ ?_ ?_ ?_ v w node
  · intro f s node ih ev hmem
    simp only [diffV] at hmem
    rcases List.mem_append.mp hmem with hmem | hmem
    · rcases List.mem_append.mp hmem with hmem | hmem
      · exact ih ev hmem
      · split at hmem
        · simp at hmem
        · simp at hmem; subst hmem; exact ⟨[], by simp [DEvent.node]⟩
    · split at hmem
      · simp at hmem
      · simp at hmem; subst hmem; exact ⟨[], by simp [DEvent.node]⟩
  · intro f s node ih ev hmem
    simp only [diffV] at hmem
    rcases List.mem_append.mp hmem with hmem | hmem
    · rcases List.mem_append.mp hmem with hmem | hmem
      · exact ih ev hmem
      · split at hmem
        · simp at hmem
        · simp at hmem; subst hmem; exact ⟨[], by simp [DEvent.node]⟩
    · split at hmem
      · simp at hmem
      · simp at hmem; subst hmem; exact ⟨[], by simp [DEvent.node]⟩
  · intro f s node hnd hnl hbeq ev hmem
    cases f <;> cases s <;>
      first
        | exact (hnd _ _ rfl rfl).elim
        | exact (hnl _ _ rfl rfl).elim
        | (simp only [diffV] at hmem; rw [if_pos hbeq] at hmem; simp at hmem)
  · intro f s node hnd hnl hbeq ev hmem
    cases f <;> cases s <;>
      first
        | exact (hnd _ _ rfl rfl).elim
        | exact (hnl _ _ rfl rfl).elim
        | (simp only [diffV] at hmem; rw [if_neg hbeq] at hmem; simp at hmem;
            subst hmem; exact ⟨[], by simp [DEvent.node]⟩)
  · intro f node i ev hmem
    simp [diffLInter] at hmem
  · intro f node i hne ev hmem
    cases f with
    | nil => exact absurd rfl hne
    | cons a as => simp [diffLInter] at hmem
  · intro a as b bs node i ih1 ih2 ev hmem
    simp only [diffLInter] at hmem
    rcases List.mem_append.mp hmem with hmem | hmem
    · obtain ⟨suf, hsuf⟩ := ih1 ev hmem
      exact ⟨PKey.i i :: suf, by simpa [List.append_assoc] using hsuf⟩
    · exact ih2 ev hmem
  · intro s node ev hmem
    simp [diffDInter] at hmem
  · intro k v rest s node ih1 ih2 ev hmem
    simp only [diffDInter] at hmem
    rcases List.mem_append.mp hmem with hmem | hmem
    · cases hg : pyGet s k with
      | none => rw [hg] at hmem; simp at hmem
      | some w =>
        rw [hg] at hmem
        obtain ⟨suf, hsuf⟩ := ih1 w ev hmem
        exact ⟨PKey.s k :: suf, by simpa [List.append_assoc] using hsuf⟩
    · exact ih2 ev hmem

/-- Events of the top-level dict recursion are labelled by keys of the
first (desired) dict. -/
theorem diffDInter_node_key : ∀ (f s : Dict) (ev : DEvent),
    ev ∈ diffDInter f s [] →
    ∃ k suffix, containsKey f k = true ∧ ev.node = dotted (PKey.s k :: suffix) := by
  intro f
  induction f with
  | nil => intro s ev h; simp [diffDInter] at h
  | cons q rest ih =>
    obtain ⟨k, v⟩ := q
    intro s ev h
    rw [diffDInter] at h
    rcases List.mem_append.mp h with h1 | h2
    · cases hg : pyGet s k with
      | none => rw [hg] at h1; simp at h1
      | some w =>
        rw [hg] at h1
        obtain ⟨suf, hsuf⟩ := diffV_node_spec v w ([] ++ [PKey.s k]) ev h1
        exact ⟨k, suf, by simp [containsKey, pyGet], by simpa using hsuf⟩
    · obtain ⟨k', suf, hk', hev⟩ := ih s ev h2
      refine ⟨k', suf, ?_, hev⟩
      by_cases e : k = k'
      · simp [containsKey, pyGet, e]
      · simpa [containsKey, pyGet, e] using hk'

/-- Every key collected by `compareconf` on two dicts is a top-level key of
the first (desired) dict. -/
theorem mem_compareconf_keys : ∀ (f s : Dict) (y : PKey),
    y ∈ compareconf (.dict f) (.dict s) → ∃ k, containsKey f k = true ∧ y = PKey.s k := by
  intro f s y h
  unfold compareconf at h
  rcases mem_foldl_ccStep _ [] y h with h0 | ⟨ev, hev, hy⟩
  · simp at h0
  · simp only [diffV] at hev
    rcases List.mem_append.mp hev with hev | hev
    · rcases List.mem_append.mp hev with hev | hev
      · obtain ⟨k, suf, hk, hnode⟩ := diffDInter_node_key f s ev hev
        rw [hnode] at hy
        exact ⟨k, hk, (nodeHead_dotted _ _ _ hy).symm ▸ rfl⟩
      · split at hev
        · simp at hev
        · simp at hev; subst hev
          simp [DEvent.node, dotted, nodeHead] at hy
    · split at hev
      · simp at hev
      · simp at hev; subst hev
        simp [DEvent.node, dotted, nodeHead] at hy

/-- C10: the structural differ is asymmetric — a top-level key present in
the live object but absent from the desired object never appears in
`compareconf(desired, live)`, so live-only metadata fields (`id`,
timestamps, `_etag`) alone never mark an object as changed. -/
theorem claim_C10_differ_asymmetric (d l : Dict) (k : String)
    (hlive : containsKey l k = true) (hdesired : containsKey d k = false) :
    PKey.s k ∉ compareconf (.dict d) (.dict l) := by
  intro hmem
  obtain ⟨k', hk', he⟩ := mem_compareconf_keys d l _ hmem
  have : k = k' := by cases he; rfl
  subst this
  rw [hk'] at hdesired
  cases hdesired

/-- Witness for C10 at a concrete desired/live pair. -/
theorem claim_C10_witness :
    containsKey [("id", Value.str "x"), ("name", Value.str "n")] "id" = true ∧
    containsKey [("name", Value.str "n")] "id" = false ∧
    PKey.s "id" ∉ compareconf (.dict [("name", Value.str "n")])
      (.dict [("id", Value.str "x"), ("name", Value.str "n")]) :=
  ⟨by decide, by decide,
    claim_C10_differ_asymmetric [("name", Value.str "n")]
      [("id", Value.str "x"), ("name", Value.str "n")] "id" (by decide) (by decide)⟩

/-- C8: the structural differ is reflexive — `compareconf(x, x)` is empty
for every (well-formed, duplicate-key-free) attribute map `x`, so re-running
reconciliation against an unchanged desired state deems no write needed. -/
theorem claim_C8_compareconf_self (x : Dict) (h : wfV (Value.dict x) = true) :
    compareconf (.dict x) (.dict x) = [] :=
  compareconf_self _ h

/-- Witness for C8 at a concrete attribute map. -/
theorem claim_C8_witness :
    wfV (Value.dict [("name", Value.str "A"),
      ("paths", Value.list [Value.num 1, Value.null]),
      ("meta", Value.dict [("id", Value.str "z")])]) = true ∧
    compareconf (.dict [("name", Value.str "A"),
      ("paths", Value.list [Value.num 1, Value.null]),
      ("meta", Value.dict [("id", Value.str "z")])])
      (.dict [("name", Value.str "A"),
      ("paths", Value.list [Value.num 1, Value.null]),
      ("meta", Value.dict [("id", Value.str "z")])]) = [] :=
  ⟨by decide, claim_C8_compareconf_self _ (by decide)⟩

/-- Lookup after merging: the desired (source) value wins where present,
the live (dest) value survives elsewhere. -/
theorem update_payload_get : ∀ (source dest : Dict), nodupKeys source = true →
    ∀ k, pyGet (update_payload source dest) k =
      if containsKey source k = true then pyGet source k else pyGet dest k := by
  intro source
  induction source with
  | nil => intro dest h k; simp [update_payload, pyGet, containsKey]
  | cons q rest ih =>
    obtain ⟨a, b⟩ := q
    intro dest h k
    have h1 : containsKey rest a = false ∧ nodupKeys rest = true := by
      simpa [nodupKeys] using h
    have hfold : update_payload ((a, b) :: rest) dest =
        update_payload rest (pySet dest a b) := by
      simp [update_payload]
    rw [hfold, ih _ h1.2 k]
    by_cases hk : k = a
    · subst hk
      have hrest : pyGet rest k = none := pyGet_eq_none_of_not_contains h1.1
      simp [pyGet, containsKey, hrest, pyGet_pySet_self]
    · have hne : a ≠ k := Ne.symm hk
      simp [pyGet, containsKey, hne, pyGet_pySet_other dest a b k hk]

/-- C4: `update_payload(source, dest)` is a right-biased overlay — the
result's key set is the union of both key sets, every key of `source` maps
to `source`'s value, and every `dest`-only key (live-only fields such as
`id` and system timestamps) keeps `dest`'s value, so the merged payload's
keys are a superset of the live object's keys. -/
theorem claim_C4_update_payload_merge (source dest : Dict)
    (h : nodupKeys source = true) :
    (∀ k, pyGet (update_payload source dest) k =
      if containsKey source k = true then pyGet source k else pyGet dest k) ∧
    (∀ k, containsKey (update_payload source dest) k =
      (containsKey source k || containsKey dest k)) := by
  refine ⟨update_payload_get source dest h, fun k => ?_⟩
  unfold containsKey
  rw [update_payload_get source dest h k]
  unfold containsKey
  cases hps : pyGet source k <;> simp [hps]

/-- Reading back the key just written. -/
theorem aget_aset_self {α : Type} (m : List (String × α)) (k : String) (v : α) :
    aget (aset m k v) k = some v := by
  induction m with
  | nil => simp [aset, aget]
  | cons q rest ih =>
    by_cases hk : q.1 = k
    · obtain ⟨qk, qv⟩ := q; subst hk; simp [aset, aget]
    · obtain ⟨qk, qv⟩ := q
      simp only at hk
      simp [aset, aget, hk, ih]

/-- Writing one key leaves the others unchanged. -/
theorem aget_aset_other {α : Type} (m : List (String × α)) (k : String) (v : α)
    (k' : String) (h : k' ≠ k) : aget (aset m k v) k' = aget m k' := by
  induction m with
  | nil => simp [aset, aget, Ne.symm h]
  | cons q rest ih =>
    obtain ⟨qk, qv⟩ := q
    by_cases hk : qk = k
    · subst hk; simp [aset, aget, Ne.symm h]
    · by_cases hk' : qk = k'
      · subst hk'; simp [aset, aget, h, hk]
      · simp [aset, aget, hk, hk', ih]

/-- A rule carries at most one ID. -/
theorem ruleIdIs_unique {r : Value} {a b : String}
    (ha : ruleIdIs r a = true) (hb : ruleIdIs r b = true) : a = b := by
  cases r with
  | dict d =>
      simp only [ruleIdIs] at ha hb
      cases hg : pyGet d "id" with
      | none => rw [hg] at ha; simp at ha
      | some v =>
          rw [hg] at ha hb
          cases v with
          | str s => simp at ha hb; rw [← ha, ← hb]
          | null => simp at ha
          | bool x => simp at ha
          | num x => simp at ha
          | list x => simp at ha
          | dict x => simp at ha
  | null => simp [ruleIdIs] at ha
  | bool x => simp [ruleIdIs] at ha
  | num x => simp [ruleIdIs] at ha
  | str x => simp [ruleIdIs] at ha
  | list x => simp [ruleIdIs] at ha

/-- A membership in an overwritten table comes from the table or is the new
binding. -/
theorem tset_mem {m : List (String × String)} {k v : String} {p : String × String}
    (h : p ∈ tset m k v) : p ∈ m ∨ p = (k, v) := by
  induction m with
  | nil => simpa [tset] using h
  | cons q rest ih =>
    obtain ⟨qk, qv⟩ := q
    by_cases hk : qk = k
    · subst hk
      simp only [tset, if_pos rfl] at h
      rcases List.mem_cons.mp h with h | h
      · exact Or.inr h
      · exact Or.inl (List.mem_cons_of_mem _ h)
    · simp only [tset, if_neg hk] at h
      rcases List.mem_cons.mp h with h | h
      · exact Or.inl (h ▸ List.mem_cons_self _ _)
      · rcases ih h with h | h
        · exact Or.inl (List.mem_cons_of_mem _ h)
        · exact Or.inr h

/-- Presence of an ID in a set's table, as a Bool. -/
def storeHasId (store : RuleStore) (sid rid : String) : Bool :=
  ((aget store sid).getD []).any (fun r => ruleIdIs r rid)

/-- Appending a rule preserves every present ID. -/
theorem storeHasId_append_mono {store : RuleStore} {sid rid : String}
    (h : storeHasId store sid rid = true) (sid2 : String) (r : Value) :
    storeHasId (storeAppendRule store sid2 r) sid rid = true := by
  unfold storeHasId storeAppendRule at *
  by_cases he : sid2 = sid
  · subst he
    cases hg : aget store sid2 with
    | none => rw [hg] at h; simp at h
    | some rs =>
        rw [hg] at h
        dsimp only
        rw [aget_aset_self]
        simp only [Option.getD_some] at h ⊢
        simp [List.any_append, h]
  · have hne : sid ≠ sid2 := Ne.symm he
    cases hg : aget store sid2 with
    | none => dsimp only; rw [aget_aset_other _ _ _ _ hne]; exact h
    | some rs => dsimp only; rw [aget_aset_other _ _ _ _ hne]; exact h

/-- The appended rule's ID is present afterwards. -/
theorem storeHasId_append_self {sid rid : String} (store : RuleStore) {r : Value}
    (h : ruleIdIs r rid = true) :
    storeHasId (storeAppendRule store sid r) sid rid = true := by
  unfold storeHasId storeAppendRule
  cases hg : aget store sid with
  | none => dsimp only; rw [aget_aset_self]; simp [h]
  | some rs => dsimp only; rw [aget_aset_self]; simp [List.any_append, h]

/-- Upserting a rule whose ID matches the target preserves every present
ID. -/
theorem storeHasId_replace_mono {store : RuleStore} {sid rid : String}
    (h : storeHasId store sid rid = true) (sid2 rid2 : String) {body : Value}
    (hb : ruleIdIs body rid2 = true) :
    storeHasId (storeReplaceRule store sid2 rid2 body) sid rid = true := by
  unfold storeHasId storeReplaceRule at *
  by_cases he : sid2 = sid
  · subst he
    cases hg : aget store sid2 with
    | none => rw [hg] at h; simp at h
    | some rs =>
        rw [hg] at h
        simp only [Option.getD_some] at h
        dsimp only
        by_cases hx : rs.any (fun r => ruleIdIs r rid2) = true
        · rw [if_pos hx, aget_aset_self]
          simp only [Option.getD_some]
          obtain ⟨r, hr, hrid⟩ := List.any_eq_true.mp h
          rw [List.any_eq_true]
          by_cases hr2 : ruleIdIs r rid2 = true
          · have : rid2 = rid := ruleIdIs_unique hr2 hrid
            subst this
            exact ⟨body, List.mem_map.mpr ⟨r, hr, by simp [hr2]⟩, hb⟩
          · exact ⟨r, List.mem_map.mpr ⟨r, hr, by simp [hr2]⟩, hrid⟩
        · rw [if_neg hx, aget_aset_self]
          simp only [Option.getD_some]
          simp [List.any_append, h]
  · have hne : sid ≠ sid2 := Ne.symm he
    cases hg : aget store sid2 with
    | none => dsimp only; rw [aget_aset_other _ _ _ _ hne]; exact h
    | some rs =>
        dsimp only
        by_cases hx : rs.any (fun r => ruleIdIs r rid2) = true
        · rw [if_pos hx, aget_aset_other _ _ _ _ hne]; exact h
        · rw [if_neg hx, aget_aset_other _ _ _ _ hne]; exact h

/-- The upserted rule's own ID is present afterwards. -/
theorem storeHasId_replace_self {sid rid : String} (store : RuleStore) {body : Value}
    (hb : ruleIdIs body rid = true) :
    storeHasId (storeReplaceRule store sid rid body) sid rid = true := by
  unfold storeHasId storeReplaceRule
  cases hg : aget store sid with
  | none => dsimp only; rw [aget_aset_self]; simp [hb]
  | some rs =>
      dsimp only
      by_cases hx : rs.any (fun r => ruleIdIs r rid) = true
      · rw [if_pos hx, aget_aset_self]
        simp only [Option.getD_some]
        obtain ⟨r, hr, hrid⟩ := List.any_eq_true.mp hx
        exact List.any_eq_true.mpr ⟨body, List.mem_map.mpr ⟨r, hr, by simp [hrid]⟩, hb⟩
      · rw [if_neg hx, aget_aset_self]
        simp [List.any_append, hb]

/-- Removing one ID preserves every other present ID. -/
theorem storeHasId_remove_other {store : RuleStore} {sid rid : String}
    (h : storeHasId store sid rid = true) (sid2 rid2 : String) (hne : rid ≠ rid2) :
    storeHasId (storeRemoveRule store sid2 rid2) sid rid = true := by
  unfold storeHasId storeRemoveRule at *
  by_cases he : sid2 = sid
  · subst he
    cases hg : aget store sid2 with
    | none => rw [hg] at h; simp at h
    | some rs =>
        rw [hg] at h
        dsimp only
        rw [aget_aset_self]
        simp only [Option.getD_some] at h ⊢
        obtain ⟨r, hr, hrid⟩ := List.any_eq_true.mp h
        refine List.any_eq_true.mpr ⟨r, List.mem_filter.mpr ⟨hr, ?_⟩, hrid⟩
        by_cases hr2 : ruleIdIs r rid2 = true
        · exact absurd (ruleIdIs_unique hrid hr2) hne
        · simp [hr2]
  · have hne : sid ≠ sid2 := Ne.symm he
    cases hg : aget store sid2 with
    | none => dsimp only; exact h
    | some rs => dsimp only; rw [aget_aset_other _ _ _ _ hne]; exact h

/-- Resolution order for Security prefix names: the global table first,
then the local table. -/
def resolvePrefix (g l : List (String × String)) (n : String) : Option String :=
  match tlookup g n with
  | some i => some i
  | none => tlookup l n

/-- String lists are hashable entry-wise. -/
theorem allHashable_map_str : ∀ l : List String, allHashable (l.map .str) = true := by
  intro l
  induction l with
  | nil => rfl
  | cons a t ih => simpa [allHashable] using ih

/-- The prefix loop keeps exactly the resolvable names, translated. -/
theorem filterResolvedGL_map_str (g l : List (String × String)) :
    ∀ sp : List String,
      filterResolvedGL g l (sp.map .str) = sp.filterMap (resolvePrefix g l) := by
  intro sp
  induction sp with
  | nil => rfl
  | cons a t ih =>
    simp only [List.map_cons, filterResolvedGL, List.filterMap_cons, resolvePrefix]
    cases hg : tlookup g a with
    | some i => simp [hg, ih]
    | none =>
      cases hl : tlookup l a with
      | some i => simp [hg, hl, ih]
      | none => simp [hg, hl, ih]

/-- The zone loop keeps exactly the resolvable names, translated. -/
theorem filterResolved_map_str (z : List (String × String)) :
    ∀ sz : List String,
      filterResolved z (sz.map .str) = sz.filterMap (tlookup z) := by
  intro sz
  induction sz with
  | nil => rfl
  | cons a t ih =>
    simp only [List.map_cons, filterResolved, List.filterMap_cons]
    cases hz : tlookup z a with
    | some i => simp [hz, ih]
    | none => simp [hz, ih]

/-- The app loop translates resolvable names and passes the rest through
unchanged, reporting exactly the unresolved ones. -/
theorem transAppsList_map_str (t : List (String × String)) :
    ∀ ap : List String,
      transAppsList t (ap.map .str) =
        (ap.map (fun n => Value.str ((tlookup t n).getD n)),
         (ap.filter (fun n => (tlookup t n).isNone)).map Value.str) := by
  intro ap
  induction ap with
  | nil => rfl
  | cons a r ih =>
    simp only [List.map_cons, transAppsList, ih]
    cases ht : tlookup t a with
    | some i => simp [ht]
    | none => simp [ht]

/-- C5 counterexample: with an empty catalog, a security rule whose
`source_zone_ids` holds the unresolvable name `"Z"` is translated to an
empty zone list with no warning — the unresolved reference is dropped, not
passed through unchanged with a warning as the claim states. -/
theorem claim_C5_counterexample :
    translateRuleSecN2ID ⟨[], [], [], []⟩
        [("name", Value.str "R"), ("source_zone_ids", Value.list [Value.str "Z"])] =
      some ([("name", Value.str "R"), ("source_zone_ids", Value.list [])], []) ∧
    Value.list [] ≠ Value.list [Value.str "Z"] := by
  constructor
  · rfl
  · simp

/-- C5 as amended: in the Security `N2ID` translation, unresolved
`app_def_ids` names are passed through unchanged and reported as warnings
(never fatal for a rule that carries its `name`), while unresolved
`source_zone_ids`, `destination_zone_ids`, `source_prefix_ids` and
`destination_prefix_ids` names are silently dropped from the output list
(also never fatal). -/
theorem claim_C5_amended (cat : SecCatalog) (nm : String)
    (sp dp sz dz ap : List String) :
    translateRuleSecN2ID cat
      [("name", Value.str nm),
       ("source_prefix_ids", Value.list (sp.map Value.str)),
       ("destination_prefix_ids", Value.list (dp.map Value.str)),
       ("source_zone_ids", Value.list (sz.map Value.str)),
       ("destination_zone_ids", Value.list (dz.map Value.str)),
       ("app_def_ids", Value.list (ap.map Value.str))] =
    some ([("name", Value.str nm),
       ("source_prefix_ids", Value.list ((sp.filterMap
         (resolvePrefix cat.ngfwglobalprefix_name_id cat.ngfwlocalprefix_name_id)).map Value.str)),
       ("destination_prefix_ids", Value.list ((dp.filterMap
         (resolvePrefix cat.ngfwglobalprefix_name_id cat.ngfwlocalprefix_name_id)).map Value.str)),
       ("source_zone_ids", Value.list ((sz.filterMap
         (tlookup cat.seczone_name_id)).map Value.str)),
       ("destination_zone_ids", Value.list ((dz.filterMap
         (tlookup cat.seczone_name_id)).map Value.str)),
       ("app_def_ids", Value.list (ap.map
         (fun n => Value.str ((tlookup cat.app_name_id n).getD n))))],
      (ap.filter (fun n => (tlookup cat.app_name_id n).isNone)).map Value.str) := by
  simp [translateRuleSecN2ID, secFieldPrefix, secFieldZone, pyGet, pySet,
    allHashable_map_str, filterResolvedGL_map_str, filterResolved_map_str,
    transAppsList_map_str]

/-- C1 divergence witness: a live Path stack flagged
`default_policysetstack = true` whose name is absent from the desired
document is deleted by `push_policy_path` — its stack/set cleanup passes
(unlike those of the other four domains) carry no default-flag guard. -/
theorem claim_C1_path_deletes_default_stack :
    (pushPolicyPath
      ⟨⟨[], [], [], [], [], []⟩, [], [], [],
        [("Default Stack", .dict [("id", .str "stack-1"),
          ("default_policysetstack", .bool true)])], [], 0⟩
      [(NETWORK_POLICY_SETS, .list []), (NETWORK_POLICY_STACKS, .list [])]).map Prod.fst =
    some [Call.delete "networkpolicysetstacks" "stack-1"] := by
  rfl

/-- C6 divergence witness: on a document without the requested key,
`extractfromyaml` returns Python `None` (not an empty map) after printing
"Skipping..", and `push_policy_path` then raises (`None.keys()`) instead of
leaving the domain untouched. -/
theorem claim_C6_missing_key_raises :
    extractfromyaml [] NETWORK_POLICY_SETS = Except.ok none ∧
    pushPolicyPath ⟨⟨[], [], [], [], [], []⟩, [], [], [], [], [], 0⟩ [] = none := by
  exact ⟨rfl, rfl⟩

/-- C7 counterexample: a desired document containing one new Path set with
one rule that lacks `paths_allowed` makes the whole run abort
(`update_rule` raises on the rule), so the per-domain reconciliation
functions are not total and one bad rule is not isolated from its
siblings. -/
theorem claim_C7_counterexample :
    pushPolicyPath ⟨⟨[], [], [], [], [], []⟩, [], [], [], [], [], 0⟩
      [(NETWORK_POLICY_SETS, .list
          [.dict [("SetA", .dict [(NETWORK_POLICY_RULES, .list
            [.dict [("Rule1", .dict [])]])])]]),
       (NETWORK_POLICY_STACKS, .list [])] = none := by
  rfl

/-- `mapOptList` succeeds exactly when every element does. -/
theorem mapOptList_isSome {α β : Type} (f : α → Option β) :
    ∀ l : List α, (mapOptList f l).isSome = true ↔ ∀ a ∈ l, (f a).isSome = true := by
  intro l
  induction l with
  | nil => simp [mapOptList]
  | cons a t ih =>
    cases hf : f a with
    | none => simp [mapOptList, hf]
    | some b =>
      cases ht : mapOptList f t with
      | none => simp [mapOptList, hf, ht, ← ih]
      | some bs => simp [mapOptList, hf, ht, ← ih]

/-- One `paths_allowed` member is accepted by `update_rule` exactly when it
is null or sized. -/
theorem updateRuleStep_isSome (kv : String × Value) :
    (updateRuleStep kv).isSome = true ↔
      kv.2 = Value.null ∨ (pyLen kv.2).isSome = true := by
  obtain ⟨k, v⟩ := kv
  cases v with
  | null => simp [updateRuleStep]
  | bool b => simp [updateRuleStep, pyLen]
  | num n => simp [updateRuleStep, pyLen]
  | str s => cases hs : s.length <;> simp [updateRuleStep, pyLen, hs]
  | list l => cases hs : l.length <;> simp [updateRuleStep, pyLen, hs]
  | dict d => cases hs : d.length <;> simp [updateRuleStep, pyLen, hs]

/-- C7 as amended: remote write failures are isolated per object (the loops
check `cgx_status` and continue), but exceptions are not — the embedding of
the run is partial.  `update_rule` returns normally exactly when the rule
carries a dict-valued `paths_allowed` all of whose members are null or
sized values; on any other rule it raises, and (per the counterexample)
that exception aborts the entire `push_policy_path` run. -/
theorem claim_C7_amended (rule : Dict) :
    (update_rule rule).isSome = true ↔
      ∃ pa, pyGet rule "paths_allowed" = some (.dict pa) ∧
        ∀ kv ∈ pa, kv.2 = Value.null ∨ (pyLen kv.2).isSome = true := by
  unfold update_rule
  cases hg : pyGet rule "paths_allowed" with
  | none => simp
  | some v =>
    cases v with
    | dict pa =>
      dsimp only
      have h1 : ∀ o : Option (List (String × Value)),
          (o.bind fun pa2 =>
            some (pySet rule "paths_allowed" (.dict pa2))).isSome = o.isSome := by
        intro o; cases o <;> simp
      constructor
      · intro hs
        refine ⟨pa, rfl, fun kv hkv => (updateRuleStep_isSome kv).mp ?_⟩
        have h2 : (mapOptList updateRuleStep pa).isSome = true := by
          cases hm : mapOptList updateRuleStep pa with
          | none => rw [hm] at hs; simp at hs
          | some _ => simp
        exact (mapOptList_isSome updateRuleStep pa).mp h2 kv hkv
      · rintro ⟨pa', hpa, hall⟩
        injection hpa with h4
        injection h4 with h5
        subst h5
        have h2 : (mapOptList updateRuleStep pa).isSome = true :=
          (mapOptList_isSome updateRuleStep pa).mpr
            (fun kv hkv => (updateRuleStep_isSome kv).mpr (hall kv hkv))
        cases hm : mapOptList updateRuleStep pa with
        | none => rw [hm] at h2; simp at h2
        | some pa2 => simp [hm]
    | null => simp
    | bool b => simp
    | num n => simp
    | str s => simp
    | list l => simp

/-- Witness for C4 at a concrete desired/live pair. -/
theorem claim_C4_witness :
    nodupKeys [("name", Value.str "A"), ("action", Value.str "allow")] = true ∧
    pyGet (update_payload [("name", Value.str "A"), ("action", Value.str "allow")]
        [("id", Value.str "123"), ("name", Value.str "Old")]) "id" =
      if containsKey [("name", Value.str "A"), ("action", Value.str "allow")] "id" = true
      then pyGet [("name", Value.str "A"), ("action", Value.str "allow")] "id"
      else pyGet [("id", Value.str "123"), ("name", Value.str "Old")] "id" :=
  ⟨by decide,
    (claim_C4_update_payload_merge [("name", Value.str "A"), ("action", Value.str "allow")]
      [("id", Value.str "123"), ("name", Value.str "Old")] (by decide)).1 "id"⟩

/-! ### Order-list integrity (C3): the rules loop keeps every mapped ID
live in the set's rule table, and the finalize comprehension emits only
mapped IDs -/

/-- A successful lookup comes from a binding of the dict. -/
theorem mem_of_pyGet : ∀ {d : Dict} {k : String} {v : Value},
    pyGet d k = some v → (k, v) ∈ d := by
  intro d
  induction d with
  | nil => intro k v h; simp [pyGet] at h
  | cons q rest ih =>
      intro k v h
      obtain ⟨qk, qv⟩ := q
      by_cases hk : qk = k
      · subst hk
        rw [pyGet, if_pos rfl] at h
        exact (Option.some.inj h) ▸ List.mem_cons_self _ _
      · rw [pyGet, if_neg hk] at h
        exact List.mem_cons_of_mem _ (ih h)

/-- A lookup in an overwritten translation table hits the new binding or an
old one. -/
theorem tlookup_tset_cases : ∀ {m : List (String × String)} {k v x y : String},
    tlookup (tset m k v) x = some y → (x = k ∧ y = v) ∨ tlookup m x = some y := by
  intro m
  induction m with
  | nil =>
      intro k v x y h
      rw [tset] at h
      by_cases hx : k = x
      · subst hx
        rw [tlookup, if_pos rfl] at h
        exact Or.inl ⟨rfl, (Option.some.inj h).symm⟩
      · rw [tlookup, if_neg hx] at h
        simp [tlookup] at h
  | cons q rest ih =>
      intro k v x y h
      obtain ⟨qk, qv⟩ := q
      by_cases hk : qk = k
      · subst hk
        rw [tset, if_pos rfl] at h
        by_cases hx : qk = x
        · subst hx
          rw [tlookup, if_pos rfl] at h
          exact Or.inl ⟨rfl, (Option.some.inj h).symm⟩
        · rw [tlookup, if_neg hx] at h
          exact Or.inr (by rw [tlookup, if_neg hx]; exact h)
      · rw [tset, if_neg hk] at h
        by_cases hx : qk = x
        · subst hx
          rw [tlookup, if_pos rfl] at h
          exact Or.inr (by rw [tlookup, if_pos rfl]; exact h)
        · rw [tlookup, if_neg hx] at h
          rcases ih h with h | h
          · exact Or.inl h
          · exact Or.inr (by rw [tlookup, if_neg hx]; exact h)

/-- The object the store materializes for a create carries the fresh ID. -/
theorem ruleIdIs_createdObject : ∀ (body : Value) (rid : String),
    ruleIdIs (createdObject body rid) rid = true := by
  intro body rid
  cases body with
  | dict rd =>
      simp only [createdObject, ruleIdIs]
      rw [pyGet_pySet_self]
      simp
  | null => simp [createdObject, ruleIdIs, pyGet]
  | bool b => simp [createdObject, ruleIdIs, pyGet]
  | num n => simp [createdObject, ruleIdIs, pyGet]
  | str s => simp [createdObject, ruleIdIs, pyGet]
  | list l => simp [createdObject, ruleIdIs, pyGet]

/-- Every live rule of the set's name index carries an ID present in the
set's store table (true of any index read back from the store). -/
def ctrlIdsLive (store : RuleStore) (sid : String) (rules_ctrl : Dict) : Bool :=
  rules_ctrl.all (fun kv =>
    match kv.2 with
    | .dict rctrl =>
        (match pyGet rctrl "id" with
         | some (.str rid) => storeHasId store sid rid
         | _ => true)
    | _ => true)

/-- Invariant of the NAT rules loop: every ID recorded in
`nat_rule_name_id` is the ID of a rule present in the set's table, and so
is every ID of the live index the loop reads from. -/
def RunIdsLive (sid : String) (rules_ctrl : Dict) (acc : NatRuleAcc) : Prop :=
  (∀ nm id, tlookup acc.map nm = some id → storeHasId acc.store sid id = true) ∧
  (∀ rn rctrl rid, pyGet rules_ctrl rn = some (.dict rctrl) →
    pyGet rctrl "id" = some (.str rid) → storeHasId acc.store sid rid = true)

/-- A fold over `Option` preserves any invariant its step preserves. -/
theorem foldlM_option_invariant {α β : Type} {f : α → β → Option α} {P : α → Prop}
    (hstep : ∀ a b a2, P a → f a b = some a2 → P a2) :
    ∀ (l : List β) (a a2 : α), List.foldlM f a l = some a2 → P a → P a2 := by
  intro l
  induction l with
  | nil =>
      intro a a2 h hP
      exact (Option.some.inj h) ▸ hP
  | cons b t ih =>
      intro a a2 h hP
      have h2 : Option.bind (f a b) (fun a1 => List.foldlM f a1 t) = some a2 := h
      cases hf : f a b with
      | none => rw [hf] at h2; exact absurd h2 (by simp)
      | some a1 =>
          rw [hf] at h2
          exact ih a1 a2 h2 (hstep a b a1 hP hf)

/-- A skipped rule records a live ID: the invariant is preserved. -/
theorem natRuleSkip_liveIds {sid : String} {rules_ctrl : Dict}
    {acc acc2 : NatRuleAcc} {rn : String} {rctrlv : Value}
    (hget : pyGet rules_ctrl rn = some rctrlv)
    (hstep : natRuleSkip acc rn rctrlv = some acc2)
    (hmap : ∀ nm id, tlookup acc.map nm = some id → storeHasId acc.store sid id = true)
    (hctrl : ∀ rn2 rctrl2 rid2, pyGet rules_ctrl rn2 = some (.dict rctrl2) →
      pyGet rctrl2 "id" = some (.str rid2) → storeHasId acc.store sid rid2 = true) :
    RunIdsLive sid rules_ctrl acc2 := by
  cases rctrlv with
  | dict rctrl =>
      simp only [natRuleSkip] at hstep
      cases hid : pyGet rctrl "id" with
      | none => rw [hid] at hstep; exact absurd hstep (by simp)
      | some v =>
          rw [hid] at hstep
          cases v with
          | str rid =>
              cases Option.some.inj hstep
              refine ⟨?_, hctrl⟩
              intro nm id hl
              rcases tlookup_tset_cases hl with ⟨hnm, hidv⟩ | hl
              · exact hidv ▸ hctrl rn rctrl rid hget hid
              · exact hmap nm id hl
          | null => exact absurd hstep (by simp)
          | bool b => exact absurd hstep (by simp)
          | num n => exact absurd hstep (by simp)
          | list l => exact absurd hstep (by simp)
          | dict d => exact absurd hstep (by simp)
  | null => exact absurd hstep (by simp [natRuleSkip])
  | bool b => exact absurd hstep (by simp [natRuleSkip])
  | num n => exact absurd hstep (by simp [natRuleSkip])
  | str s => exact absurd hstep (by simp [natRuleSkip])
  | list l => exact absurd hstep (by simp [natRuleSkip])

/-- An updated rule upserts exactly the rule whose ID it records: the
invariant is preserved. -/
theorem natRuleUpdate_liveIds {rulesEndpoint sid : String} {rules_ctrl : Dict}
    {acc acc2 : NatRuleAcc} {rn : String} {rd1 rctrlv : Value}
    (hstep : natRuleUpdate rulesEndpoint sid acc rn rd1 rctrlv = some acc2)
    (hmap : ∀ nm id, tlookup acc.map nm = some id → storeHasId acc.store sid id = true)
    (hctrl : ∀ rn2 rctrl2 rid2, pyGet rules_ctrl rn2 = some (.dict rctrl2) →
      pyGet rctrl2 "id" = some (.str rid2) → storeHasId acc.store sid rid2 = true) :
    RunIdsLive sid rules_ctrl acc2 := by
  cases rd1 with
  | dict rd =>
      cases rctrlv with
      | dict rctrl =>
          simp only [natRuleUpdate] at hstep
          cases hid : pyGet (update_payload rd rctrl) "id" with
          | none => rw [hid] at hstep; exact absurd hstep (by simp)
          | some v =>
              rw [hid] at hstep
              cases v with
              | str rid =>
                  cases Option.some.inj hstep
                  have hb : ruleIdIs (.dict (update_payload rd rctrl)) rid = true := by
                    simp only [ruleIdIs]
                    rw [hid]
                    simp
                  refine ⟨?_, ?_⟩
                  · intro nm id hl
                    rcases tlookup_tset_cases hl with ⟨hnm, hidv⟩ | hl
                    · subst hidv; exact storeHasId_replace_self acc.store hb
                    · exact storeHasId_replace_mono (hmap nm id hl) sid rid hb
                  · intro rn2 rctrl2 rid2 hg2 hi2
                    exact storeHasId_replace_mono (hctrl rn2 rctrl2 rid2 hg2 hi2) sid rid hb
              | null => exact absurd hstep (by simp)
              | bool b => exact absurd hstep (by simp)
              | num n => exact absurd hstep (by simp)
              | list l => exact absurd hstep (by simp)
              | dict d => exact absurd hstep (by simp)
      | null => exact absurd hstep (by simp [natRuleUpdate])
      | bool b => exact absurd hstep (by simp [natRuleUpdate])
      | num n => exact absurd hstep (by simp [natRuleUpdate])
      | str s => exact absurd hstep (by simp [natRuleUpdate])
      | list l => exact absurd hstep (by simp [natRuleUpdate])
  | null => exact absurd hstep (by simp [natRuleUpdate])
  | bool b => exact absurd hstep (by simp [natRuleUpdate])
  | num n => exact absurd hstep (by simp [natRuleUpdate])
  | str s => exact absurd hstep (by simp [natRuleUpdate])
  | list l => exact absurd hstep (by simp [natRuleUpdate])

/-- A created rule appends the object carrying its fresh ID: the invariant
is preserved. -/
theorem natRuleCreate_liveIds {rulesEndpoint sid : String} {rules_ctrl : Dict}
    {acc : NatRuleAcc} {rn : String} {rd1 : Value}
    (hmap : ∀ nm id, tlookup acc.map nm = some id → storeHasId acc.store sid id = true)
    (hctrl : ∀ rn2 rctrl2 rid2, pyGet rules_ctrl rn2 = some (.dict rctrl2) →
      pyGet rctrl2 "id" = some (.str rid2) → storeHasId acc.store sid rid2 = true) :
    RunIdsLive sid rules_ctrl (natRuleCreate rulesEndpoint sid acc rn rd1) := by
  refine ⟨?_, ?_⟩
  · intro nm id hl
    simp only [natRuleCreate] at hl ⊢
    rcases tlookup_tset_cases hl with ⟨hnm, hidv⟩ | hl
    · exact hidv ▸ storeHasId_append_self acc.store (ruleIdIs_createdObject _ _)
    · exact storeHasId_append_mono (hmap nm id hl) sid _
  · intro rn2 rctrl2 rid2 hg2 hi2
    simp only [natRuleCreate]
    exact storeHasId_append_mono (hctrl rn2 rctrl2 rid2 hg2 hi2) sid _

/-- One step of the shared rules-loop shape preserves the liveness
invariant, whatever the per-rule preparation does. -/
theorem processRule_liveIds (translateEntry : Value → Option Value)
    (rulesEndpoint : String) (sid : String) (rules_ctrl : Dict)
    {acc acc2 : NatRuleAcc} {entry : Value}
    (hstep : processRuleN2ID translateEntry rulesEndpoint sid rules_ctrl acc entry =
      some acc2)
    (hinv : RunIdsLive sid rules_ctrl acc) : RunIdsLive sid rules_ctrl acc2 := by
  obtain ⟨hmap, hctrl⟩ := hinv
  cases entry with
  | dict d =>
      cases d with
      | nil => exact absurd hstep (by simp [processRuleN2ID])
      | cons p tl =>
          obtain ⟨rn, rdv⟩ := p
          simp only [processRuleN2ID] at hstep
          cases ht : translateEntry rdv with
          | none => rw [ht] at hstep; exact absurd hstep (by simp)
          | some rd1 =>
              rw [ht] at hstep
              dsimp only at hstep
              cases hget : pyGet rules_ctrl rn with
              | some rctrlv =>
                  rw [hget] at hstep
                  dsimp only at hstep
                  by_cases hcc : (compareconf rd1 rctrlv).isEmpty = true
                  · rw [if_pos hcc] at hstep
                    exact natRuleSkip_liveIds hget hstep hmap hctrl
                  · rw [if_neg hcc] at hstep
                    exact natRuleUpdate_liveIds hstep hmap hctrl
              | none =>
                  rw [hget] at hstep
                  dsimp only at hstep
                  cases Option.some.inj hstep
                  exact natRuleCreate_liveIds hmap hctrl
  | null => exact absurd hstep (by simp [processRuleN2ID])
  | bool b => exact absurd hstep (by simp [processRuleN2ID])
  | num n => exact absurd hstep (by simp [processRuleN2ID])
  | str s => exact absurd hstep (by simp [processRuleN2ID])
  | list l => exact absurd hstep (by simp [processRuleN2ID])

/-- One step of the NAT rules loop preserves the liveness invariant. -/
theorem natProcessRule_liveIds (cat : NatCatalog) (sid : String)
    (rules_ctrl : Dict) {acc acc2 : NatRuleAcc} {entry : Value}
    (hstep : natProcessRule cat sid rules_ctrl acc entry = some acc2)
    (hinv : RunIdsLive sid rules_ctrl acc) : RunIdsLive sid rules_ctrl acc2 :=
  processRule_liveIds (fun v => some (translateNatEntryRule cat v)) "natpolicyrules"
    sid rules_ctrl hstep hinv

/-- The Performance per-rule preparation (the threshold-profile swap of
lines 3056-3058 followed by `translate_rule(PERFORMANCE, N2ID)`, which
matches no type branch and returns the rule unchanged, its `try/except
pass` wrapper absorbing any exception): a truthy string
`thresholdprofile_id` found in `perf_threshold_name_id` is swapped for its
ID; an unresolved or non-string truthy hashable value is kept; a truthy
list or dict raises `TypeError` on the unhashable membership test (the
swap sits outside the `try`), and a non-dict rule raises on `.get` —
both modelled as `none`. -/
def translatePerfEntryRule (perf_threshold_name_id : List (String × String))
    (v : Value) : Option Value :=
  match v with
  | .dict rd =>
      (match pyGet rd "thresholdprofile_id" with
       | some tv =>
          if pyTruthy tv then
            match tv with
            | .str s =>
                (match tlookup perf_threshold_name_id s with
                 | some tid => some (.dict (pySet rd "thresholdprofile_id" (.str tid)))
                 | none => some (.dict rd))
            | .list _ => none
            | .dict _ => none
            | _ => some (.dict rd)
          else some (.dict rd)
       | none => some (.dict rd))
  | _ => none

/-- One desired Performance rule (the Performance instance of the shared
loop shape, lines 3050-3087: skip when the differ is silent, recording the
live ID; PUT the merged payload otherwise, recording its ID; POST a
missing rule, recording the fresh ID). -/
def perfProcessRule (perf_threshold_name_id : List (String × String)) (sid : String)
    (rules_ctrl : Dict) (acc : NatRuleAcc) (entry : Value) : Option NatRuleAcc :=
  processRuleN2ID (translatePerfEntryRule perf_threshold_name_id)
    "perfmgmtpolicysets_perfmgmtpolicyrules" sid rules_ctrl acc entry

/-- The Performance instance of the orphaned-rule cleanup (lines
3094-3098, running after the finalize PUT). -/
def perfOrphanStep (sid : String) (names : List String)
    (p : List Call × RuleStore) (kv : String × Value) : Option (List Call × RuleStore) :=
  orphanStep "perfmgmtpolicysets_perfmgmtpolicyrules" sid names p kv

/-- The Performance order-finalize comprehension (line 3091):
`[perf_rule_name_id[rname] for rname in rule_order if rname in
perf_rule_name_id]`. -/
def perfFinalizeIds (perf_rule_name_id : List (String × String))
    (rule_order : Value) : Option (List String) :=
  match rule_order with
  | .list l =>
      if allHashable l then
        some (l.filterMap (fun v => match v with | .str nm => tlookup perf_rule_name_id nm | _ => none))
      else none
  | _ => some []

/-- The Performance comprehension is the comprehension shared with NAT. -/
theorem perfFinalizeIds_eq (m : List (String × String)) (o : Value) :
    perfFinalizeIds m o = natFinalizeIds m o := rfl

/-- One desired Security rule in the new-set branch (lines 2721-2735):
`translate_rule(SECURITY, N2ID)` runs unguarded, an auto-created live rule
of the same name is always PUT the merged payload (no differ gate),
recording `ruledata["id"]`, and a missing rule is POSTed, recording the
fresh ID. -/
def secProcessRuleNew (cat : SecCatalog) (sid : String) (rules_ctrl : Dict)
    (acc : NatRuleAcc) (entry : String × Value) : Option NatRuleAcc :=
  match entry with
  | (rn, .dict rdRaw) =>
      (match translateRuleSecN2ID cat rdRaw with
       | some (rd1, _) =>
          (match pyGet rules_ctrl rn with
           | some rctrlv =>
              natRuleUpdate "ngfwsecuritypolicyrules" sid acc rn (.dict rd1) rctrlv
           | none => some (natRuleCreate "ngfwsecuritypolicyrules" sid acc rn (.dict rd1)))
       | none => none)
  | _ => none

/-- The Security order-finalize comprehension (line 2740):
`[ngfwrule_name_id[rname] for rname in policyrule_order if rname in
ngfwrule_name_id]`. -/
def secFinalizeIds (ngfwrule_name_id : List (String × String))
    (policyrule_order : Value) : Option (List String) :=
  match policyrule_order with
  | .list l =>
      if allHashable l then
        some (l.filterMap (fun v => match v with | .str nm => tlookup ngfwrule_name_id nm | _ => none))
      else none
  | _ => some []

/-- The Security comprehension is the comprehension shared with NAT. -/
theorem secFinalizeIds_eq (m : List (String × String)) (o : Value) :
    secFinalizeIds m o = natFinalizeIds m o := rfl

/-- The value the `policyrule_order` guard variable holds when the
Security new-set branch reaches its finalize (lines 2697-2700): the branch
reads the field, nulls it, then reads it AGAIN — so the guard variable is
the re-read of the just-nulled field. -/
def secNewSetOrder (set_yaml : Dict) : Value :=
  (pyGet (pySet set_yaml "policyrule_order" .null) "policyrule_order").getD .null

/-- No orphaned live rule (a name-index entry whose name the run did not
record) carries an ID that some desired rule resolved to: the
uniqueness of rule IDs across one set's live rules. -/
def orphanIdsDisjoint (names : List String) (m : List (String × String))
    (rules_ctrl : Dict) : Bool :=
  rules_ctrl.all (fun kv =>
    names.contains kv.1 ||
    (match kv.2 with
     | .dict rd =>
        (match pyGet rd "id" with
         | some (.str rid) => !((m.map Prod.snd).contains rid)
         | _ => true)
     | _ => true))

/-- An ID a translation table resolves to is among the table's IDs. -/
theorem tlookup_mem_snd : ∀ (m : List (String × String)) (nm id : String),
    tlookup m nm = some id → (m.map Prod.snd).contains id = true := by
  intro m
  induction m with
  | nil => intro nm id h; simp [tlookup] at h
  | cons p rest ih =>
      intro nm id h
      obtain ⟨k, v⟩ := p
      simp only [tlookup] at h
      by_cases hk : k = nm
      · rw [if_pos hk] at h
        cases Option.some.inj h
        simp only [List.map_cons, List.contains_cons]
        simp
      · rw [if_neg hk] at h
        have hr := ih nm id h
        simp only [List.map_cons, List.contains_cons]
        rw [hr]
        simp

/-- A fold over `Option` preserves any invariant its step preserves on the
list's members. -/
theorem foldlM_option_invariant_of_mem {α β : Type} {f : α → β → Option α}
    (P : α → Prop) : ∀ (l : List β),
    (∀ b ∈ l, ∀ a a2, P a → f a b = some a2 → P a2) →
    ∀ (a a2 : α), List.foldlM f a l = some a2 → P a → P a2 := by
  intro l
  induction l with
  | nil =>
      intro _ a a2 h hP
      exact (Option.some.inj h) ▸ hP
  | cons b t ih =>
      intro hstep a a2 h hP
      have h2 : Option.bind (f a b) (fun a1 => List.foldlM f a1 t) = some a2 := h
      cases hf : f a b with
      | none => rw [hf] at h2; exact absurd h2 (by simp)
      | some a1 =>
          rw [hf] at h2
          exact ih (fun x hx => hstep x (List.mem_cons_of_mem _ hx)) a1 a2 h2
            (hstep b (List.mem_cons_self _ _) a a1 hP hf)

/-- The orphan cleanup never deletes a rule whose ID a desired rule
resolved to: an ID of the run's map stays live through the pass. -/
theorem orphanFold_keepsId (ep sid : String) (names : List String)
    (m : List (String × String)) (rules_ctrl : Dict) (p p2 : List Call × RuleStore)
    (hfold : rules_ctrl.foldlM (orphanStep ep sid names) p = some p2)
    (hdisj : orphanIdsDisjoint names m rules_ctrl = true)
    (id : String) (hid : (List.map Prod.snd m).contains id = true)
    (hlive : storeHasId p.2 sid id = true) : storeHasId p2.2 sid id = true := by
  refine foldlM_option_invariant_of_mem
    (fun q => storeHasId q.2 sid id = true) rules_ctrl ?_ p p2 hfold hlive
  intro kv hkv q q2 hq hstep
  have hd := List.all_eq_true.mp hdisj kv hkv
  simp only at hd
  unfold orphanStep at hstep
  by_cases hc : names.contains kv.1 = true
  · rw [if_pos hc] at hstep
    exact (Option.some.inj hstep) ▸ hq
  · rw [if_neg hc] at hstep
    rw [Bool.or_eq_true] at hd
    rcases hd with hd | hd
    · exact absurd hd hc
    · cases hv : kv.2 with
      | dict rd =>
          rw [hv] at hstep hd
          simp only at hstep hd
          cases hi : pyGet rd "id" with
          | none => rw [hi] at hstep; simp at hstep
          | some w =>
              rw [hi] at hstep hd
              try simp only at hstep hd
              cases w with
              | str rid =>
                  cases Option.some.inj hstep
                  have hrid : (List.map Prod.snd m).contains rid = false := by
                    simpa using hd
                  have hne : id ≠ rid := by
                    intro he
                    rw [he] at hid
                    rw [hid] at hrid
                    exact absurd hrid (by simp)
                  exact storeHasId_remove_other hq sid rid hne
              | null => simp at hstep
              | bool b => simp at hstep
              | num n => simp at hstep
              | list l => simp at hstep
              | dict d => simp at hstep
      | null => rw [hv] at hstep; simp at hstep
      | bool b => rw [hv] at hstep; simp at hstep
      | num n => rw [hv] at hstep; simp at hstep
      | str s => rw [hv] at hstep; simp at hstep
      | list l => rw [hv] at hstep; simp at hstep

/-- Every ID the finalize comprehension emits is the resolution of an
order-list name: raw names never pass through. -/
theorem finalizeIds_resolved (m : List (String × String)) (order : Value)
    (ids : List String) (hfin : natFinalizeIds m order = some ids) :
    ∀ id ∈ ids, ∃ nm l, order = Value.list l ∧ Value.str nm ∈ l ∧
      tlookup m nm = some id := by
  intro id hid
  unfold natFinalizeIds at hfin
  split at hfin
  case _ l =>
    split at hfin
    · cases Option.some.inj hfin
      obtain ⟨v, hv, hres⟩ := List.mem_filterMap.mp hid
      match v, hres with
      | .str nm, hres => exact ⟨nm, l, rfl, hv, hres⟩
    · exact absurd hfin (by simp)
  case _ =>
    cases Option.some.inj hfin
    simp at hid

/-- One step of the Performance rules loop preserves the liveness
invariant. -/
theorem perfProcessRule_liveIds (tp : List (String × String)) (sid : String)
    (rules_ctrl : Dict) {acc acc2 : NatRuleAcc} {entry : Value}
    (hstep : perfProcessRule tp sid rules_ctrl acc entry = some acc2)
    (hinv : RunIdsLive sid rules_ctrl acc) : RunIdsLive sid rules_ctrl acc2 :=
  processRule_liveIds (translatePerfEntryRule tp)
    "perfmgmtpolicysets_perfmgmtpolicyrules" sid rules_ctrl hstep hinv

/-- One step of the Security new-set rules loop preserves the liveness
invariant. -/
theorem secProcessRuleNew_liveIds (cat : SecCatalog) (sid : String)
    (rules_ctrl : Dict) {acc acc2 : NatRuleAcc} {entry : String × Value}
    (hstep : secProcessRuleNew cat sid rules_ctrl acc entry = some acc2)
    (hinv : RunIdsLive sid rules_ctrl acc) : RunIdsLive sid rules_ctrl acc2 := by
  obtain ⟨hmap, hctrl⟩ := hinv
  obtain ⟨rn, rdv⟩ := entry
  cases rdv with
  | dict rdRaw =>
      simp only [secProcessRuleNew] at hstep
      cases ht : translateRuleSecN2ID cat rdRaw with
      | none => rw [ht] at hstep; simp at hstep
      | some pr =>
          obtain ⟨rd1, ws⟩ := pr
          rw [ht] at hstep
          dsimp only at hstep
          cases hget : pyGet rules_ctrl rn with
          | some rctrlv =>
              rw [hget] at hstep
              dsimp only at hstep
              exact natRuleUpdate_liveIds hstep hmap hctrl
          | none =>
              rw [hget] at hstep
              dsimp only at hstep
              cases Option.some.inj hstep
              exact natRuleCreate_liveIds hmap hctrl
  | null => simp [secProcessRuleNew] at hstep
  | bool b => simp [secProcessRuleNew] at hstep
  | num n => simp [secProcessRuleNew] at hstep
  | str s => simp [secProcessRuleNew] at hstep
  | list l => simp [secProcessRuleNew] at hstep

/-- C3: every entry of the order field a finalizing narrow update sends is
the resolved ID of an order-list name, and that ID belongs to a rule
present in the set post-reconciliation; an order-list name with no
resolved ID contributes nothing to the payload — raw names never pass
through.  Covered per domain: the NAT dual-order finalize
(`destination_zone_policyrule_order` / `source_zone_policyrule_order`,
lines 2906-2915), with liveness concluded AFTER the orphan-delete pass
that follows it; the Performance `link_health_policyrule_order` finalize
(line 3091), likewise post-orphan; and the Security new-set
`policyrule_order` finalize (lines 2738-2741), whose branch runs no
orphan pass, so the rules-loop end is its post-reconciliation state.  The
disjointness hypothesis says no orphaned live rule shares its ID with a
recorded desired rule (rule IDs are unique within a set).  The last
conjunct records that the Security branch re-reads its guard variable
after nulling the field (lines 2697-2700), so that finalize can in fact
never fire. -/
theorem claim_C3_order_integrity :
    (∀ (cat : NatCatalog) (sid : String) (rules_ctrl : Dict) (lst : List Value)
       (tr0 : List Call) (store0 : RuleStore) (n0 : Nat) (racc : NatRuleAcc)
       (order : Value) (ids : List String) (trF trD : List Call) (storeD : RuleStore),
       ctrlIdsLive store0 sid rules_ctrl = true →
       lst.foldlM (natProcessRule cat sid rules_ctrl)
         { trace := tr0, store := store0, nextId := n0, map := [], names := [] } = some racc →
       natFinalizeIds racc.map order = some ids →
       rules_ctrl.foldlM (natOrphanStep sid racc.names) (trF, racc.store) =
         some (trD, storeD) →
       orphanIdsDisjoint racc.names racc.map rules_ctrl = true →
       ∀ id ∈ ids, ∃ nm l, order = Value.list l ∧ Value.str nm ∈ l ∧
         tlookup racc.map nm = some id ∧ storeHasId storeD sid id = true) ∧
    (∀ (tp : List (String × String)) (sid : String) (rules_ctrl : Dict) (lst : List Value)
       (tr0 : List Call) (store0 : RuleStore) (n0 : Nat) (racc : NatRuleAcc)
       (order : Value) (ids : List String) (trF trD : List Call) (storeD : RuleStore),
       ctrlIdsLive store0 sid rules_ctrl = true →
       lst.foldlM (perfProcessRule tp sid rules_ctrl)
         { trace := tr0, store := store0, nextId := n0, map := [], names := [] } = some racc →
       perfFinalizeIds racc.map order = some ids →
       rules_ctrl.foldlM (perfOrphanStep sid racc.names) (trF, racc.store) =
         some (trD, storeD) →
       orphanIdsDisjoint racc.names racc.map rules_ctrl = true →
       ∀ id ∈ ids, ∃ nm l, order = Value.list l ∧ Value.str nm ∈ l ∧
         tlookup racc.map nm = some id ∧ storeHasId storeD sid id = true) ∧
    (∀ (cat : SecCatalog) (sid : String) (rules_ctrl rules_yaml : Dict)
       (tr0 : List Call) (store0 : RuleStore) (n0 : Nat) (racc : NatRuleAcc)
       (order : Value) (ids : List String),
       ctrlIdsLive store0 sid rules_ctrl = true →
       rules_yaml.foldlM (secProcessRuleNew cat sid rules_ctrl)
         { trace := tr0, store := store0, nextId := n0, map := [], names := [] } = some racc →
       secFinalizeIds racc.map order = some ids →
       ∀ id ∈ ids, ∃ nm l, order = Value.list l ∧ Value.str nm ∈ l ∧
         tlookup racc.map nm = some id ∧ storeHasId racc.store sid id = true) ∧
    (∀ set_yaml : Dict, pyTruthy (secNewSetOrder set_yaml) = false) := by
  refine ⟨?_, ?_, ?_, ?_⟩
  · intro cat sid rules_ctrl lst tr0 store0 n0 racc order ids trF trD storeD
      hctrl hfold hfin hforph hdisj
    have hinv : RunIdsLive sid rules_ctrl racc := by
      refine foldlM_option_invariant
        (fun a b a2 hP hf => natProcessRule_liveIds cat sid rules_ctrl hf hP)
        lst _ racc hfold ⟨?_, ?_⟩
      · intro nm id h
        simp [tlookup] at h
      · intro rn rctrl rid h1 h2
        have hall := List.all_eq_true.mp hctrl _ (mem_of_pyGet h1)
        simp only at hall
        rw [h2] at hall
        exact hall
    have hforph2 : rules_ctrl.foldlM (orphanStep "natpolicyrules" sid racc.names)
        (trF, racc.store) = some (trD, storeD) := hforph
    intro id hid
    obtain ⟨nm, l, hord, hmem, hres⟩ := finalizeIds_resolved _ _ _ hfin id hid
    exact ⟨nm, l, hord, hmem, hres,
      orphanFold_keepsId _ sid racc.names racc.map rules_ctrl _ _ hforph2 hdisj id
        (tlookup_mem_snd _ _ _ hres) (hinv.1 nm id hres)⟩
  · intro tp sid rules_ctrl lst tr0 store0 n0 racc order ids trF trD storeD
      hctrl hfold hfin hforph hdisj
    have hinv : RunIdsLive sid rules_ctrl racc := by
      refine foldlM_option_invariant
        (fun a b a2 hP hf => perfProcessRule_liveIds tp sid rules_ctrl hf hP)
        lst _ racc hfold ⟨?_, ?_⟩
      · intro nm id h
        simp [tlookup] at h
      · intro rn rctrl rid h1 h2
        have hall := List.all_eq_true.mp hctrl _ (mem_of_pyGet h1)
        simp only at hall
        rw [h2] at hall
        exact hall
    have hforph2 : rules_ctrl.foldlM
        (orphanStep "perfmgmtpolicysets_perfmgmtpolicyrules" sid racc.names)
        (trF, racc.store) = some (trD, storeD) := hforph
    rw [perfFinalizeIds_eq] at hfin
    intro id hid
    obtain ⟨nm, l, hord, hmem, hres⟩ := finalizeIds_resolved _ _ _ hfin id hid
    exact ⟨nm, l, hord, hmem, hres,
      orphanFold_keepsId _ sid racc.names racc.map rules_ctrl _ _ hforph2 hdisj id
        (tlookup_mem_snd _ _ _ hres) (hinv.1 nm id hres)⟩
  · intro cat sid rules_ctrl rules_yaml tr0 store0 n0 racc order ids
      hctrl hfold hfin
    have hinv : RunIdsLive sid rules_ctrl racc := by
      refine foldlM_option_invariant
        (fun a b a2 hP hf => secProcessRuleNew_liveIds cat sid rules_ctrl hf hP)
        rules_yaml _ racc hfold ⟨?_, ?_⟩
      · intro nm id h
        simp [tlookup] at h
      · intro rn rctrl rid h1 h2
        have hall := List.all_eq_true.mp hctrl _ (mem_of_pyGet h1)
        simp only at hall
        rw [h2] at hall
        exact hall
    rw [secFinalizeIds_eq] at hfin
    intro id hid
    obtain ⟨nm, l, hord, hmem, hres⟩ := finalizeIds_resolved _ _ _ hfin id hid
    exact ⟨nm, l, hord, hmem, hres, hinv.1 nm id hres⟩
  · intro set_yaml
    unfold secNewSetOrder
    rw [pyGet_pySet_self]
    rfl

/-- The concrete NAT data of the C3 witness: set `ps1` holds the live rule
`R1` with ID `r1`. -/
def c3NatStore : RuleStore := [("ps1", [.dict [("name", .str "R1"), ("id", .str "r1")]])]

/-- The live NAT rule index of the C3 witness. -/
def c3NatCtrl : Dict := [("R1", .dict [("name", .str "R1"), ("id", .str "r1")])]

/-- The NAT rules-loop result of the C3 witness: the matching rule is
skipped, its live ID recorded. -/
def c3NatAcc : NatRuleAcc :=
  { trace := []
    store := c3NatStore
    nextId := 0
    map := [("R1", "r1")]
    names := ["R1"] }

/-- The concrete Performance data of the C3 witness: set `ps2` holds the
live rule `P1` with ID `p1`. -/
def c3PerfStore : RuleStore := [("ps2", [.dict [("name", .str "P1"), ("id", .str "p1")]])]

/-- The live Performance rule index of the C3 witness. -/
def c3PerfCtrl : Dict := [("P1", .dict [("name", .str "P1"), ("id", .str "p1")])]

/-- The Performance rules-loop result of the C3 witness. -/
def c3PerfAcc : NatRuleAcc :=
  { trace := []
    store := c3PerfStore
    nextId := 0
    map := [("P1", "p1")]
    names := ["P1"] }

/-- The concrete Security data of the C3 witness: new set `ps3` holds the
auto-created live rule `S1` with ID `s1`. -/
def c3SecStore : RuleStore := [("ps3", [.dict [("name", .str "S1"), ("id", .str "s1")]])]

/-- The live Security auto-rule index of the C3 witness. -/
def c3SecCtrl : Dict := [("S1", .dict [("name", .str "S1"), ("id", .str "s1")])]

/-- The Security new-set rules-loop result of the C3 witness: the
auto-rule is PUT the merged payload, its ID recorded. -/
def c3SecAcc : NatRuleAcc :=
  { trace := [.put "ngfwsecuritypolicyrules" "s1"
      (.dict [("name", .str "S1"), ("id", .str "s1")])]
    store := c3SecStore
    nextId := 0
    map := [("S1", "s1")]
    names := ["S1"] }

/-- Witness for C3: one concrete set per domain — a NAT set `ps1` (live
rule `R1`/`r1`, order `["R1", "Ghost"]`), a Performance set `ps2` (live
rule `P1`/`p1`), and a Security new set `ps3` (auto-rule `S1`/`s1`): each
finalize payload is exactly the one resolved ID, which is live in the
set's table after the domain's cleanup; and the Security new-set guard
variable is falsy on a set that carries an order list. -/
theorem claim_C3_witness :
    ctrlIdsLive c3NatStore "ps1" c3NatCtrl = true ∧
    natFinalizeIds [("R1", "r1")] (.list [.str "R1", .str "Ghost"]) = some ["r1"] ∧
    orphanIdsDisjoint ["R1"] [("R1", "r1")] c3NatCtrl = true ∧
    (∀ id ∈ ["r1"], ∃ nm l,
      Value.list [Value.str "R1", Value.str "Ghost"] = Value.list l ∧ Value.str nm ∈ l ∧
      tlookup [("R1", "r1")] nm = some id ∧ storeHasId c3NatStore "ps1" id = true) ∧
    perfFinalizeIds [("P1", "p1")] (.list [.str "P1", .str "Ghost"]) = some ["p1"] ∧
    (∀ id ∈ ["p1"], ∃ nm l,
      Value.list [Value.str "P1", Value.str "Ghost"] = Value.list l ∧ Value.str nm ∈ l ∧
      tlookup [("P1", "p1")] nm = some id ∧ storeHasId c3PerfStore "ps2" id = true) ∧
    secFinalizeIds [("S1", "s1")] (.list [.str "S1", .str "Ghost"]) = some ["s1"] ∧
    (∀ id ∈ ["s1"], ∃ nm l,
      Value.list [Value.str "S1", Value.str "Ghost"] = Value.list l ∧ Value.str nm ∈ l ∧
      tlookup [("S1", "s1")] nm = some id ∧ storeHasId c3SecStore "ps3" id = true) ∧
    pyTruthy (secNewSetOrder [("policyrule_order", Value.list [Value.str "A"])]) = false := by
  refine ⟨by decide, by rfl, by rfl, ?_, by rfl, ?_, by rfl, ?_, ?_⟩
  · exact claim_C3_order_integrity.1 ⟨[], [], [], [], []⟩ "ps1" c3NatCtrl
      [.dict [("R1", .dict [("name", .str "R1")])]] [] c3NatStore 0 c3NatAcc
      (.list [.str "R1", .str "Ghost"]) ["r1"] [] [] c3NatStore
      (by decide) rfl rfl rfl (by rfl)
  · exact claim_C3_order_integrity.2.1 [] "ps2" c3PerfCtrl
      [.dict [("P1", .dict [("name", .str "P1")])]] [] c3PerfStore 0 c3PerfAcc
      (.list [.str "P1", .str "Ghost"]) ["p1"] [] [] c3PerfStore
      (by decide) rfl rfl rfl (by rfl)
  · exact claim_C3_order_integrity.2.2.1 ⟨[], [], [], []⟩ "ps3" c3SecCtrl
      [("S1", .dict [("name", .str "S1")])] [] c3SecStore 0 c3SecAcc
      (.list [.str "S1", .str "Ghost"]) ["s1"]
      (by decide) rfl rfl
  · exact claim_C3_order_integrity.2.2.2 [("policyrule_order", Value.list [Value.str "A"])]

/-! ### Second-run behaviour (C2): matched-state predicates and the calls a
re-run still issues -/

/-- The name under which a desired rule entry is keyed (its first key). -/
def headRuleName : Value → Option String
  | .dict ((rn, _) :: _) => some rn
  | _ => none

/-- The names of a desired rule list, in order (`rule_names_in_yaml`). -/
def ruleEntryNames (lst : List Value) : List String := lst.filterMap headRuleName

/-- An order field the finalize comprehension accepts without raising. -/
def orderHashable : Value → Bool
  | .list l => allHashable l
  | _ => true

/-- One desired NAT rule already in sync with the live index: the differ
reports no change against the live rule of the same name, which carries a
string ID. -/
def natRuleMatched (cat : NatCatalog) (rules_ctrl : Dict) : Value → Bool
  | .dict ((rn, rdv) :: _) =>
      (match pyGet rules_ctrl rn with
       | some (.dict rctrl) =>
          (compareconf (translateNatEntryRule cat rdv) (.dict rctrl)).isEmpty &&
          (match pyGet rctrl "id" with
           | some (.str _) => true
           | _ => false)
       | _ => false)
  | _ => false

/-- One desired NAT set whose rules are already in sync with the live
state: the set exists live (with a string ID), every desired rule matches
its live rule, no live rule is orphaned, and the order fields are
finalize-safe.  The set BODY need not match: a first run with a nonempty
order list leaves the live order fields holding the ID lists its finalize
PUT wrote, so the differ keeps reporting a body change (desired `None`
against live `[ids]`) on every later run. -/
def natSetPresent (cat : NatCatalog) (setsByName : Dict) (store : RuleStore) :
    String × Value → Bool
  | (natsetname, .dict sy0) =>
      (match natRulesYamlList ((pyGet sy0 "natpolicyrules").getD (.list [])) with
       | some lst =>
          (match pyGet setsByName natsetname with
           | some (.dict ctrl) =>
              (match pyGet ctrl "id" with
               | some (.str sid) =>
                  (match indexRulesByName ((aget store sid).getD []) with
                   | some rules_ctrl =>
                      lst.all (natRuleMatched cat rules_ctrl) &&
                      rules_ctrl.all (fun kv => (ruleEntryNames lst).contains kv.1)
                   | none => false) &&
                  orderHashable ((pyGet (pyDel sy0 "natpolicyrules")
                    "destination_zone_policyrule_order").getD (.list [])) &&
                  orderHashable ((pyGet (pyDel sy0 "natpolicyrules")
                    "source_zone_policyrule_order").getD (.list []))
               | _ => false)
           | _ => false)
       | none => false)
  | _ => false

/-- The local-map bookkeeping a matched set entry performs (the ID
handshake records the live set's name and ID). -/
def natLocalsStep (setsByName : Dict) (L : NatLocals) : String × Value → NatLocals
  | (natsetname, _) =>
      match pyGet setsByName natsetname with
      | some (.dict ctrl) =>
          (match pyGet ctrl "id" with
           | some (.str sid) =>
              { fresh_id_map := tset L.fresh_id_map natsetname sid,
                setIdName := tset L.setIdName sid natsetname,
                setNameId := tset L.setNameId natsetname sid }
           | _ => L)
      | _ => L

/-- One desired NAT stack that exists live: the stack step either skips it
(no diff) or updates it with a merged payload carrying a string ID — it
never creates or deletes. -/
def natStackPresent (cat : NatCatalog) (stacksByName : Dict) (L : NatLocals) :
    String × Value → Bool
  | (name, .dict sty0) =>
      let prepared := natStackPrepared cat L sty0
      (match pyGet stacksByName name with
       | some ctrlv =>
          if (compareconf (.dict prepared) ctrlv).isEmpty then true
          else
            match ctrlv with
            | .dict ctrl =>
                (match pyGet (update_payload prepared ctrl) "id" with
                 | some (.str _) => true
                 | _ => false)
            | _ => false
       | none => false)
  | _ => false

/-- Every snapshot object is a dict that is default-flagged or still
desired, so a guarded cleanup pass deletes nothing. -/
def snapshotCovered (flagKey : String) (snapshot desired : Dict) : Bool :=
  snapshot.all (fun kv =>
    match kv.2 with
    | .dict dd =>
        (match pyGet dd flagKey with
         | some (.bool true) => true
         | _ => containsKey desired kv.1)
    | _ => false)

/-- A fold whose step fixes every accumulator returns its start. -/
theorem foldlM_option_id {α β : Type} {f : α → β → Option α} :
    ∀ (l : List β) (a : α), (∀ x ∈ l, ∀ acc, f acc x = some acc) →
      List.foldlM f a l = some a := by
  intro l
  induction l with
  | nil => intro a h; rfl
  | cons b t ih =>
      intro a h
      have h2 : List.foldlM f a (b :: t) =
          Option.bind (f a b) (fun a1 => List.foldlM f a1 t) := rfl
      rw [h2, h b (List.mem_cons_self _ _) a]
      exact ih a (fun x hx acc => h x (List.mem_cons_of_mem _ hx) acc)

/-- A finalize-safe order field never makes the comprehension raise. -/
theorem natFinalizeIds_isSome (m : List (String × String)) (order : Value)
    (h : orderHashable order = true) : (natFinalizeIds m order).isSome = true := by
  cases order with
  | list l =>
      simp only [orderHashable] at h
      simp [natFinalizeIds, h]
  | null => simp [natFinalizeIds]
  | bool b => simp [natFinalizeIds]
  | num n => simp [natFinalizeIds]
  | str s => simp [natFinalizeIds]
  | dict d => simp [natFinalizeIds]

/-- The orphan cleanup of a set whose live rules are all still desired
deletes nothing. -/
theorem natOrphanFold_covered (sid : String) (names : List String)
    (rules_ctrl : Dict) (p : List Call × RuleStore)
    (h : rules_ctrl.all (fun kv => names.contains kv.1) = true) :
    rules_ctrl.foldlM (natOrphanStep sid names) p = some p := by
  refine foldlM_option_id rules_ctrl p (fun kv hkv acc => ?_)
  have hc := List.all_eq_true.mp h kv hkv
  simp only at hc
  unfold natOrphanStep orphanStep
  rw [if_pos hc]

/-- A guarded cleanup pass over a covered snapshot issues nothing and
leaves the carried live snapshot untouched. -/
theorem guardedDeletePass_covered (endpoint flagKey : String)
    (snapshot desired : Dict) (tr : List Call) (live : Dict)
    (h : snapshotCovered flagKey snapshot desired = true) :
    guardedDeletePass endpoint flagKey snapshot desired tr live = some (tr, live) := by
  refine foldlM_option_id snapshot (tr, live) (fun kv hkv acc => ?_)
  have hc := List.all_eq_true.mp h kv hkv
  obtain ⟨k, v⟩ := kv
  cases v with
  | dict dd =>
      simp only at hc
      cases hf : pyGet dd flagKey with
      | none =>
          rw [hf] at hc
          simp only at hc
          simp [hf, hc]
      | some fv =>
          rw [hf] at hc
          cases fv with
          | bool b =>
              cases b with
              | true => simp [hf]
              | false => simp only at hc; simp [hf, hc]
          | null => simp only at hc; simp [hf, hc]
          | num n => simp only at hc; simp [hf, hc]
          | str s => simp only at hc; simp [hf, hc]
          | list l => simp only at hc; simp [hf, hc]
          | dict d2 => simp only at hc; simp [hf, hc]
  | null => simp only at hc; exact absurd hc (by simp)
  | bool b => simp only at hc; exact absurd hc (by simp)
  | num n => simp only at hc; exact absurd hc (by simp)
  | str s => simp only at hc; exact absurd hc (by simp)
  | list l => simp only at hc; exact absurd hc (by simp)

/-- Reducing a bind over `Option` once the first action is known. -/
theorem optBind_some {α β : Type} (a : α) (f : α → Option β) :
    ((some a : Option α) >>= f) = f a := rfl

/-- A matched desired rule is skipped: the loop only records its name and
live ID. -/
theorem natProcessRule_matched (cat : NatCatalog) (sid : String)
    (rules_ctrl : Dict) (acc : NatRuleAcc) {entry : Value}
    (hm : natRuleMatched cat rules_ctrl entry = true) :
    ∃ acc2 rn, headRuleName entry = some rn ∧
      natProcessRule cat sid rules_ctrl acc entry = some acc2 ∧
      acc2.trace = acc.trace ∧ acc2.store = acc.store ∧ acc2.nextId = acc.nextId ∧
      acc2.names = acc.names ++ [rn] := by
  cases entry with
  | dict d =>
      cases d with
      | nil => exact absurd hm (by simp [natRuleMatched])
      | cons p tl =>
          obtain ⟨rn, rdv⟩ := p
          simp only [natRuleMatched] at hm
          cases hget : pyGet rules_ctrl rn with
          | none => rw [hget] at hm; exact absurd hm (by simp)
          | some rctrlv =>
              rw [hget] at hm
              cases rctrlv with
              | dict rctrl =>
                  dsimp only at hm
                  rw [Bool.and_eq_true] at hm
                  obtain ⟨hcc, hid0⟩ := hm
                  cases hid : pyGet rctrl "id" with
                  | none => rw [hid] at hid0; exact absurd hid0 (by simp)
                  | some idv =>
                      rw [hid] at hid0
                      cases idv with
                      | str rid =>
                          refine ⟨{ acc with
                            names := acc.names ++ [rn]
                            map := tset acc.map rn rid }, rn, rfl, ?_, rfl, rfl, rfl, rfl⟩
                          simp only [natProcessRule, processRuleN2ID]
                          rw [hget]
                          dsimp only
                          rw [if_pos hcc]
                          simp only [natRuleSkip]
                          rw [hid]
                      | null => exact absurd hid0 (by simp)
                      | bool b => exact absurd hid0 (by simp)
                      | num n => exact absurd hid0 (by simp)
                      | list l => exact absurd hid0 (by simp)
                      | dict d2 => exact absurd hid0 (by simp)
              | null => exact absurd hm (by simp)
              | bool b => exact absurd hm (by simp)
              | num n => exact absurd hm (by simp)
              | str s => exact absurd hm (by simp)
              | list l => exact absurd hm (by simp)
  | null => exact absurd hm (by simp [natRuleMatched])
  | bool b => exact absurd hm (by simp [natRuleMatched])
  | num n => exact absurd hm (by simp [natRuleMatched])
  | str s => exact absurd hm (by simp [natRuleMatched])
  | list l => exact absurd hm (by simp [natRuleMatched])

/-- A fully matched desired rule list folds without writes, collecting
exactly its names. -/
theorem natRulesFold_matched (cat : NatCatalog) (sid : String) (rules_ctrl : Dict) :
    ∀ (lst : List Value) (acc : NatRuleAcc),
      lst.all (natRuleMatched cat rules_ctrl) = true →
      ∃ racc, lst.foldlM (natProcessRule cat sid rules_ctrl) acc = some racc ∧
        racc.trace = acc.trace ∧ racc.store = acc.store ∧ racc.nextId = acc.nextId ∧
        racc.names = acc.names ++ ruleEntryNames lst := by
  intro lst
  induction lst with
  | nil => exact fun acc h => ⟨acc, rfl, rfl, rfl, rfl, by simp [ruleEntryNames]⟩
  | cons e t ih =>
      intro acc h
      rw [List.all_cons, Bool.and_eq_true] at h
      obtain ⟨acc2, rn, hname, hstep, ht, hs, hn, hnames⟩ :=
        natProcessRule_matched cat sid rules_ctrl acc h.1
      obtain ⟨racc, hfold, ht2, hs2, hn2, hnames2⟩ := ih acc2 h.2
      refine ⟨racc, ?_, ht2.trans ht, hs2.trans hs, hn2.trans hn, ?_⟩
      · have hc : List.foldlM (natProcessRule cat sid rules_ctrl) acc (e :: t) =
            ((natProcessRule cat sid rules_ctrl acc e) >>=
              (fun a => List.foldlM (natProcessRule cat sid rules_ctrl) a t)) := rfl
        rw [hc, hstep, optBind_some]
        exact hfold
      · rw [hnames2, hnames]
        simp [ruleEntryNames, List.filterMap_cons, hname]

/-- An update call is neither a create nor a delete. -/
theorem isPut_no_create_delete {c : Call} (h : c.isPut = true) :
    c.isPost = false ∧ c.isDelete = false := by
  cases c with
  | put e i b => exact ⟨rfl, rfl⟩
  | post e b => exact absurd h (by simp [Call.isPut])
  | delete e i => exact absurd h (by simp [Call.isPut])

/-- The rules phase of a present set issues only update calls: matched
rules are all skipped, the finalize PUT fires whenever a desired order
list is truthy, and the orphan pass deletes nothing. -/
theorem natSetRulesPhase_present (cat : NatCatalog) (sid natsetname : String)
    (sy0 : Dict) (lst : List Value) (acc1 : NatAcc) (rules_ctrl : Dict)
    (hidx : indexRulesByName ((aget acc1.store sid).getD []) = some rules_ctrl)
    (hall : lst.all (natRuleMatched cat rules_ctrl) = true)
    (hcov : rules_ctrl.all (fun kv => (ruleEntryNames lst).contains kv.1) = true)
    (hdst : orderHashable ((pyGet (pyDel sy0 "natpolicyrules")
      "destination_zone_policyrule_order").getD (.list [])) = true)
    (hsrc : orderHashable ((pyGet (pyDel sy0 "natpolicyrules")
      "source_zone_policyrule_order").getD (.list [])) = true) :
    ∃ acc2, natSetRulesPhase cat sid natsetname sy0 lst acc1 = some acc2 ∧
      (∃ F, acc2.trace = acc1.trace ++ F ∧ ∀ c ∈ F, c.isPut = true) ∧
      acc2.store = acc1.store ∧ acc2.nextId = acc1.nextId ∧
      acc2.locals = acc1.locals ∧ acc2.stacksLive = acc1.stacksLive := by
  obtain ⟨racc, hfold, htr, hst, hnx, hnm⟩ :=
    natRulesFold_matched cat sid rules_ctrl lst
      ⟨acc1.trace, acc1.store, acc1.nextId, [], []⟩ hall
  have htr2 : racc.trace = acc1.trace := htr
  have hst2 : racc.store = acc1.store := hst
  have hnx2 : racc.nextId = acc1.nextId := hnx
  have hcov2 : rules_ctrl.all (fun kv => racc.names.contains kv.1) = true := by
    rw [hnm]
    simpa using hcov
  simp only [natSetRulesPhase]
  rw [hidx]
  try rw [optBind_some]
  try dsimp only
  rw [hfold]
  try rw [optBind_some]
  try dsimp only
  cases hd : pyTruthy ((pyGet (pyDel sy0 "natpolicyrules")
      "destination_zone_policyrule_order").getD (.list [])) with
  | true =>
    obtain ⟨vd, hvdE⟩ := Option.isSome_iff_exists.mp
      (natFinalizeIds_isSome racc.map _ hdst)
    cases hs : pyTruthy ((pyGet (pyDel sy0 "natpolicyrules")
        "source_zone_policyrule_order").getD (.list [])) with
    | true =>
      obtain ⟨vs, hvsE⟩ := Option.isSome_iff_exists.mp
        (natFinalizeIds_isSome racc.map _ hsrc)
      try simp only [hd, hs]
      simp only [Bool.false_or, Bool.true_or, Bool.or_false,
        Bool.or_true, Bool.or_self, Bool.false_eq_true,
        eq_self_iff_true, if_false, if_true]
      try dsimp only
      rw [hvdE]
      repeat first | rw [optBind_some] | dsimp only
      rw [hvsE]
      repeat first | rw [optBind_some] | dsimp only
      rw [natOrphanFold_covered sid racc.names rules_ctrl _ hcov2]
      repeat first | rw [optBind_some] | dsimp only
      rw [htr2, hst2, hnx2]
      refine ⟨_, rfl, ⟨_, rfl, ?_⟩, rfl, rfl, rfl, rfl⟩
      intro c hc
      rw [List.mem_singleton] at hc
      subst hc
      rfl
    | false =>
      try simp only [hd, hs]
      simp only [Bool.false_or, Bool.true_or, Bool.or_false,
        Bool.or_true, Bool.or_self, Bool.false_eq_true,
        eq_self_iff_true, if_false, if_true]
      try dsimp only
      rw [hvdE]
      repeat first | rw [optBind_some] | dsimp only
      rw [natOrphanFold_covered sid racc.names rules_ctrl _ hcov2]
      repeat first | rw [optBind_some] | dsimp only
      rw [htr2, hst2, hnx2]
      refine ⟨_, rfl, ⟨_, rfl, ?_⟩, rfl, rfl, rfl, rfl⟩
      intro c hc
      rw [List.mem_singleton] at hc
      subst hc
      rfl
  | false =>
    cases hs : pyTruthy ((pyGet (pyDel sy0 "natpolicyrules")
        "source_zone_policyrule_order").getD (.list [])) with
    | true =>
      obtain ⟨vs, hvsE⟩ := Option.isSome_iff_exists.mp
        (natFinalizeIds_isSome racc.map _ hsrc)
      try simp only [hd, hs]
      simp only [Bool.false_or, Bool.true_or, Bool.or_false,
        Bool.or_true, Bool.or_self, Bool.false_eq_true,
        eq_self_iff_true, if_false, if_true]
      try dsimp only
      repeat first | rw [optBind_some] | dsimp only
      rw [hvsE]
      repeat first | rw [optBind_some] | dsimp only
      rw [natOrphanFold_covered sid racc.names rules_ctrl _ hcov2]
      repeat first | rw [optBind_some] | dsimp only
      rw [htr2, hst2, hnx2]
      refine ⟨_, rfl, ⟨_, rfl, ?_⟩, rfl, rfl, rfl, rfl⟩
      intro c hc
      rw [List.mem_singleton] at hc
      subst hc
      rfl
    | false =>
      try simp only [hd, hs]
      simp only [Bool.false_or, Bool.true_or, Bool.or_false,
        Bool.or_true, Bool.or_self, Bool.false_eq_true,
        eq_self_iff_true, if_false, if_true]
      try dsimp only
      repeat first | rw [optBind_some] | dsimp only
      rw [natOrphanFold_covered sid racc.names rules_ctrl _ hcov2]
      repeat first | rw [optBind_some] | dsimp only
      rw [htr2, hst2, hnx2]
      refine ⟨_, rfl, ⟨[], ?_, ?_⟩, rfl, rfl, rfl, rfl⟩
      · rw [List.append_nil]
      · intro c hc
        exact absurd hc (List.not_mem_nil c)

/-- A present desired NAT set issues only update calls — possibly the wide
set-body PUT (when the differ reports a body change, as it does on every
run once a finalize PUT has written a live order list) and the narrow
dual-order finalize PUT — leaving the rule store and next ID untouched and
performing only the local ID handshake. -/
theorem natReconcileSet_present (cat : NatCatalog) (setsByName : Dict)
    (acc : NatAcc) (entry : String × Value)
    (hm : natSetPresent cat setsByName acc.store entry = true) :
    ∃ acc2, natReconcileSet cat setsByName acc entry = some acc2 ∧
      (∃ F, acc2.trace = acc.trace ++ F ∧ ∀ c ∈ F, c.isPut = true) ∧
      acc2.store = acc.store ∧ acc2.nextId = acc.nextId ∧
      acc2.locals = natLocalsStep setsByName acc.locals entry ∧
      acc2.stacksLive = acc.stacksLive := by
  obtain ⟨natsetname, syv⟩ := entry
  cases syv with
  | dict sy0 =>
      simp only [natSetPresent] at hm
      cases hyl : natRulesYamlList ((pyGet sy0 "natpolicyrules").getD (.list [])) with
      | none => rw [hyl] at hm; exact absurd hm (by simp)
      | some lst =>
          rw [hyl] at hm
          cases hset : pyGet setsByName natsetname with
          | none => rw [hset] at hm; exact absurd hm (by simp)
          | some ctrlv =>
              rw [hset] at hm
              cases ctrlv with
              | dict ctrl =>
                  dsimp only at hm
                  cases hid : pyGet ctrl "id" with
                  | none => rw [hid] at hm; exact absurd hm (by simp)
                  | some idv =>
                      rw [hid] at hm
                      cases idv with
                      | str sid =>
                          dsimp only at hm
                          simp only [Bool.and_eq_true] at hm
                          obtain ⟨⟨hrules, hdst⟩, hsrc⟩ := hm
                          cases hidx : indexRulesByName ((aget acc.store sid).getD []) with
                          | none => rw [hidx] at hrules; exact absurd hrules (by simp)
                          | some rules_ctrl =>
                              rw [hidx] at hrules
                              dsimp only at hrules
                              simp only [Bool.and_eq_true] at hrules
                              obtain ⟨hall, hcov⟩ := hrules
                              have hL : natLocalsStep setsByName acc.locals
                                  (natsetname, Value.dict sy0) =
                                  { fresh_id_map := tset acc.locals.fresh_id_map natsetname sid
                                    setIdName := tset acc.locals.setIdName sid natsetname
                                    setNameId := tset acc.locals.setNameId natsetname sid } := by
                                simp only [natLocalsStep]
                                rw [hset]
                                dsimp only
                                rw [hid]
                              by_cases hcc :
                                  (compareconf (.dict (natPrepSet sy0)) (.dict ctrl)).isEmpty = true
                              · obtain ⟨acc2, heq, ⟨F, htrF, hFp⟩, hst, hnx, hloc, hstk⟩ :=
                                  natSetRulesPhase_present cat sid natsetname sy0 lst
                                    { acc with locals :=
                                      { fresh_id_map := tset acc.locals.fresh_id_map natsetname sid
                                        setIdName := tset acc.locals.setIdName sid natsetname
                                        setNameId := tset acc.locals.setNameId natsetname sid } }
                                    rules_ctrl hidx hall hcov hdst hsrc
                                refine ⟨acc2, ?_, ⟨F, htrF, hFp⟩, hst, hnx, ?_, hstk⟩
                                · simp only [natReconcileSet]
                                  rw [hyl]
                                  try rw [optBind_some]
                                  try dsimp only
                                  rw [hset]
                                  try dsimp only
                                  rw [hid]
                                  try dsimp only
                                  try rw [optBind_some]
                                  rw [if_pos hcc]
                                  try rw [optBind_some]
                                  try dsimp only
                                  exact heq
                                · rw [hL]
                                  exact hloc
                              · obtain ⟨acc2, heq, ⟨F, htrF, hFp⟩, hst, hnx, hloc, hstk⟩ :=
                                  natSetRulesPhase_present cat sid natsetname sy0 lst
                                    { acc with
                                      locals :=
                                        { fresh_id_map := tset acc.locals.fresh_id_map natsetname sid
                                          setIdName := tset acc.locals.setIdName sid natsetname
                                          setNameId := tset acc.locals.setNameId natsetname sid }
                                      trace := acc.trace ++ [.put "natpolicysets" sid (.dict
                                        (pyDel (pyDel (update_payload (natPrepSet sy0) ctrl)
                                          "destination_zone_policyrule_order")
                                          "source_zone_policyrule_order"))]
                                      setsLive := applyObjPut acc.setsLive natsetname
                                        (pyDel (pyDel (update_payload (natPrepSet sy0) ctrl)
                                          "destination_zone_policyrule_order")
                                          "source_zone_policyrule_order") }
                                    rules_ctrl hidx hall hcov hdst hsrc
                                refine ⟨acc2, ?_, ?_, hst, hnx, ?_, hstk⟩
                                · simp only [natReconcileSet]
                                  rw [hyl]
                                  try rw [optBind_some]
                                  try dsimp only
                                  rw [hset]
                                  try dsimp only
                                  rw [hid]
                                  try dsimp only
                                  try rw [optBind_some]
                                  rw [if_neg hcc]
                                  try dsimp only
                                  try rw [optBind_some]
                                  try dsimp only
                                  exact heq
                                · refine ⟨Call.put "natpolicysets" sid (.dict
                                    (pyDel (pyDel (update_payload (natPrepSet sy0) ctrl)
                                      "destination_zone_policyrule_order")
                                      "source_zone_policyrule_order")) :: F, ?_, ?_⟩
                                  · rw [htrF]
                                    dsimp only
                                    rw [List.append_assoc]
                                    rfl
                                  · intro c hc
                                    rcases List.mem_cons.mp hc with h | h
                                    · subst h
                                      rfl
                                    · exact hFp c h
                                · rw [hL]
                                  exact hloc
                      | null => exact absurd hm (by simp)
                      | bool b => exact absurd hm (by simp)
                      | num n => exact absurd hm (by simp)
                      | list l => exact absurd hm (by simp)
                      | dict d2 => exact absurd hm (by simp)
              | null => exact absurd hm (by simp)
              | bool b => exact absurd hm (by simp)
              | num n => exact absurd hm (by simp)
              | str s => exact absurd hm (by simp)
              | list l => exact absurd hm (by simp)
  | null => exact absurd hm (by simp [natSetPresent])
  | bool b => exact absurd hm (by simp [natSetPresent])
  | num n => exact absurd hm (by simp [natSetPresent])
  | str s => exact absurd hm (by simp [natSetPresent])
  | list l => exact absurd hm (by simp [natSetPresent])

/-- A list of present desired sets folds into update calls only, with the
deterministic ID handshake. -/
theorem natSetsFold_present (cat : NatCatalog) (setsByName : Dict) (store : RuleStore) :
    ∀ (entries : List (String × Value)) (acc : NatAcc), acc.store = store →
      entries.all (natSetPresent cat setsByName store) = true →
      ∃ acc2, entries.foldlM (natReconcileSet cat setsByName) acc = some acc2 ∧
        (∃ F, acc2.trace = acc.trace ++ F ∧ ∀ c ∈ F, c.isPut = true) ∧
        acc2.store = acc.store ∧ acc2.nextId = acc.nextId ∧
        acc2.locals = entries.foldl (natLocalsStep setsByName) acc.locals ∧
        acc2.stacksLive = acc.stacksLive := by
  intro entries
  induction entries with
  | nil =>
      intro acc hst hall
      refine ⟨acc, rfl, ⟨[], ?_, ?_⟩, rfl, rfl, rfl, rfl⟩
      · rw [List.append_nil]
      · intro c hc
        exact absurd hc (List.not_mem_nil c)
  | cons e t ih =>
      intro acc hst hall
      rw [List.all_cons, Bool.and_eq_true] at hall
      obtain ⟨acc1, heq1, ⟨F1, htr1, hF1⟩, hst1, hnx1, hloc1, hstk1⟩ :=
        natReconcileSet_present cat setsByName acc e (hst ▸ hall.1)
      obtain ⟨acc2, heq2, ⟨F2, htr2, hF2⟩, hst2, hnx2, hloc2, hstk2⟩ :=
        ih acc1 (hst1.trans hst) hall.2
      have hc : List.foldlM (natReconcileSet cat setsByName) acc (e :: t) =
          ((natReconcileSet cat setsByName acc e) >>=
            (fun a => List.foldlM (natReconcileSet cat setsByName) a t)) := rfl
      refine ⟨acc2, ?_, ⟨F1 ++ F2, ?_, ?_⟩, hst2.trans hst1, hnx2.trans hnx1, ?_, hstk2.trans hstk1⟩
      · rw [hc, heq1, optBind_some]
        exact heq2
      · rw [htr2, htr1, List.append_assoc]
      · intro c hcm
        rcases List.mem_append.mp hcm with h | h
        · exact hF1 c h
        · exact hF2 c h
      · rw [hloc2, hloc1]
        rfl

/-- A present desired NAT stack is skipped or updated in place — never
created. -/
theorem natReconcileStack_present (cat : NatCatalog) (stacksByName : Dict)
    (acc : NatAcc) (entry : String × Value)
    (hm : natStackPresent cat stacksByName acc.locals entry = true) :
    ∃ acc2, natReconcileStack cat stacksByName acc entry = some acc2 ∧
      (∃ F, acc2.trace = acc.trace ++ F ∧ ∀ c ∈ F, c.isPut = true) ∧
      acc2.store = acc.store ∧ acc2.nextId = acc.nextId ∧
      acc2.locals = acc.locals ∧ acc2.setsLive = acc.setsLive := by
  obtain ⟨name, stv⟩ := entry
  cases stv with
  | dict sty0 =>
      simp only [natStackPresent] at hm
      cases hst : pyGet stacksByName name with
      | none => rw [hst] at hm; exact absurd hm (by simp)
      | some ctrlv =>
          rw [hst] at hm
          dsimp only at hm
          by_cases hcc :
              (compareconf (.dict (natStackPrepared cat acc.locals sty0)) ctrlv).isEmpty = true
          · refine ⟨acc, ?_, ⟨[], ?_, ?_⟩, rfl, rfl, rfl, rfl⟩
            · simp only [natReconcileStack]
              rw [hst]
              dsimp only
              rw [if_pos hcc]
            · rw [List.append_nil]
            · intro c hc
              exact absurd hc (List.not_mem_nil c)
          · rw [if_neg hcc] at hm
            cases ctrlv with
            | dict ctrl =>
                dsimp only at hm
                cases hdid : pyGet
                    (update_payload (natStackPrepared cat acc.locals sty0) ctrl) "id" with
                | none => rw [hdid] at hm; exact absurd hm (by simp)
                | some didv =>
                    rw [hdid] at hm
                    cases didv with
                    | str did =>
                        refine ⟨{ acc with
                            trace := acc.trace ++ [Call.put "natpolicysetstacks" did (.dict
                              (update_payload (natStackPrepared cat acc.locals sty0) ctrl))]
                            stacksLive := applyObjPut acc.stacksLive name
                              (update_payload (natStackPrepared cat acc.locals sty0) ctrl) },
                          ?_, ⟨[Call.put "natpolicysetstacks" did (.dict
                            (update_payload (natStackPrepared cat acc.locals sty0) ctrl))],
                          rfl, ?_⟩, rfl, rfl, rfl, rfl⟩
                        · simp only [natReconcileStack]
                          rw [hst]
                          try dsimp only
                          rw [if_neg hcc]
                          try dsimp only
                          rw [hdid]
                        · intro c hc
                          rw [List.mem_singleton] at hc
                          subst hc
                          rfl
                    | null => exact absurd hm (by simp)
                    | bool b => exact absurd hm (by simp)
                    | num n => exact absurd hm (by simp)
                    | list l => exact absurd hm (by simp)
                    | dict d2 => exact absurd hm (by simp)
            | null => exact absurd hm (by simp)
            | bool b => exact absurd hm (by simp)
            | num n => exact absurd hm (by simp)
            | str s2 => exact absurd hm (by simp)
            | list l => exact absurd hm (by simp)
  | null => exact absurd hm (by simp [natStackPresent])
  | bool b => exact absurd hm (by simp [natStackPresent])
  | num n => exact absurd hm (by simp [natStackPresent])
  | str s2 => exact absurd hm (by simp [natStackPresent])
  | list l => exact absurd hm (by simp [natStackPresent])

/-- A list of present desired stacks folds into update calls only. -/
theorem natStacksFold_present (cat : NatCatalog) (stacksByName : Dict) :
    ∀ (entries : List (String × Value)) (acc : NatAcc),
      entries.all (natStackPresent cat stacksByName acc.locals) = true →
      ∃ acc2, entries.foldlM (natReconcileStack cat stacksByName) acc = some acc2 ∧
        (∃ F, acc2.trace = acc.trace ++ F ∧ ∀ c ∈ F, c.isPut = true) ∧
        acc2.store = acc.store ∧ acc2.nextId = acc.nextId ∧
        acc2.locals = acc.locals ∧ acc2.setsLive = acc.setsLive := by
  intro entries
  induction entries with
  | nil =>
      intro acc hall
      refine ⟨acc, rfl, ⟨[], ?_, ?_⟩, rfl, rfl, rfl, rfl⟩
      · rw [List.append_nil]
      · intro c hc
        exact absurd hc (List.not_mem_nil c)
  | cons e t ih =>
      intro acc hall
      rw [List.all_cons, Bool.and_eq_true] at hall
      obtain ⟨acc1, heq1, ⟨F1, htr1, hF1⟩, hst1, hnx1, hloc1, hsl1⟩ :=
        natReconcileStack_present cat stacksByName acc e hall.1
      obtain ⟨acc2, heq2, ⟨F2, htr2, hF2⟩, hst2, hnx2, hloc2, hsl2⟩ :=
        ih acc1 (by rw [hloc1]; exact hall.2)
      have hc : List.foldlM (natReconcileStack cat stacksByName) acc (e :: t) =
          ((natReconcileStack cat stacksByName acc e) >>=
            (fun a => List.foldlM (natReconcileStack cat stacksByName) a t)) := rfl
      refine ⟨acc2, ?_, ⟨F1 ++ F2, ?_, ?_⟩, hst2.trans hst1, hnx2.trans hnx1,
        hloc2.trans hloc1, hsl2.trans hsl1⟩
      · rw [hc, heq1, optBind_some]
        exact heq2
      · rw [htr2, htr1, List.append_assoc]
      · intro c hcm
        rcases List.mem_append.mp hcm with h | h
        · exact hF1 c h
        · exact hF2 c h

/-- C2 (amended): a NAT run over a live state in which every desired set
and stack already exists with its rules in sync (as after a first
successful run) issues no creates and no deletes and leaves the rule
tables and the fresh-ID counter unchanged — but it is not silent: every
call it still issues is an update (PUT) against the set or stack objects,
and for each set whose desired document carries a truthy order list the
run re-issues both the wide set-body PUT (the differ keeps reporting the
desired `None` order fields against the live ID lists the previous
finalize wrote) and the narrow dual-order finalize PUT, on every run. -/
theorem claim_C2_amended (st : NatState) (doc : Dict)
    (setsYaml stacksYaml : Dict)
    (hsets : extractfromyaml doc NAT_POLICY_SETS = .ok (some setsYaml))
    (hstacks : extractfromyaml doc NAT_POLICY_STACKS = .ok (some stacksYaml))
    (hms : setsYaml.all
      (natSetPresent st.cat st.natpolicyset_name_config st.rulesBySet) = true)
    (hmst : stacksYaml.all (natStackPresent st.cat st.natpolicystack_name_config
      (setsYaml.foldl (natLocalsStep st.natpolicyset_name_config)
        { fresh_id_map := [], setIdName := [], setNameId := [] })) = true)
    (hcov1 : snapshotCovered "default_policysetstack"
      st.natpolicystack_name_config stacksYaml = true)
    (hcov2 : snapshotCovered "defaultrule_policyset"
      st.natpolicyset_name_config setsYaml = true) :
    ∃ tr st2, pushPolicyNat st doc = some (tr, st2) ∧
      st2.rulesBySet = st.rulesBySet ∧ st2.nextId = st.nextId ∧
      tr.filter Call.isPost = [] ∧ tr.filter Call.isDelete = [] ∧
      ∀ c ∈ tr, c.isPut = true := by
  obtain ⟨acc1, heq1, ⟨F1, htr1, hF1⟩, hst1, hnx1, hloc1, hstk1⟩ :=
    natSetsFold_present st.cat st.natpolicyset_name_config st.rulesBySet setsYaml
      { trace := []
        store := st.rulesBySet
        nextId := st.nextId
        locals := { fresh_id_map := [], setIdName := [], setNameId := [] }
        setsLive := st.natpolicyset_name_config
        stacksLive := st.natpolicystack_name_config } rfl hms
  have hmst2 : stacksYaml.all
      (natStackPresent st.cat st.natpolicystack_name_config acc1.locals) = true := by
    rw [hloc1]
    exact hmst
  obtain ⟨acc2, heq2, ⟨F2, htr2, hF2⟩, hst2, hnx2, hloc2, hsl2⟩ :=
    natStacksFold_present st.cat st.natpolicystack_name_config stacksYaml acc1 hmst2
  have hput : ∀ c ∈ acc2.trace, c.isPut = true := by
    intro c hc
    rw [htr2, htr1] at hc
    rcases List.mem_append.mp hc with h | h
    · rcases List.mem_append.mp h with h2 | h2
      · exact absurd h2 (List.not_mem_nil c)
      · exact hF1 c h2
    · exact hF2 c h
  refine ⟨acc2.trace,
    { st with
      natpolicyset_name_config := acc2.setsLive
      natpolicystack_name_config := acc2.stacksLive
      rulesBySet := acc2.store
      nextId := acc2.nextId }, ?_, ?_, ?_, ?_, ?_, hput⟩
  · simp only [pushPolicyNat]
    rw [hsets]
    try dsimp only
    try rw [optBind_some]
    rw [heq1]
    try rw [optBind_some]
    try dsimp only
    rw [hstacks]
    try dsimp only
    try rw [optBind_some]
    rw [heq2]
    try rw [optBind_some]
    try dsimp only
    rw [guardedDeletePass_covered "natpolicysetstacks" "default_policysetstack"
      st.natpolicystack_name_config stacksYaml acc2.trace acc2.stacksLive hcov1]
    try rw [optBind_some]
    try dsimp only
    rw [guardedDeletePass_covered "natpolicysets" "defaultrule_policyset"
      st.natpolicyset_name_config setsYaml acc2.trace acc2.setsLive hcov2]
    try rw [optBind_some]
    try dsimp only
  · exact hst2.trans hst1
  · exact hnx2.trans hnx1
  · exact List.filter_eq_nil_iff.mpr
      (fun c hc => by simp [(isPut_no_create_delete (hput c hc)).1])
  · exact List.filter_eq_nil_iff.mpr
      (fun c hc => by simp [(isPut_no_create_delete (hput c hc)).2])

/-- The empty live state a first NAT run starts from in the C2
counterexample. -/
def c2St0 : NatState :=
  { cat := ⟨[], [], [], [], []⟩
    natpolicyset_name_config := []
    natpolicystack_name_config := []
    rulesBySet := []
    nextId := 0 }

/-- The desired document of the C2 counterexample: one NAT set `SetA` with
one rule `R1` and a nonempty destination-zone order list, and no stacks. -/
def c2Doc : Dict :=
  [("natpolicysets", .list [.dict [("SetA", .dict
      [("natpolicyrules", .dict [("R1", .dict [("name", .str "R1")])]),
       ("destination_zone_policyrule_order", .list [.str "R1"])])]]),
   ("natpolicysetstacks", .list [])]

/-- What `extractfromyaml` extracts for the C2 document's NAT sets. -/
def c2SetsYaml : Dict :=
  [("SetA", .dict
    [("natpolicyrules", .dict [("R1", .dict [("name", .str "R1")])]),
     ("destination_zone_policyrule_order", .list [.str "R1"]),
     ("name", .str "SetA")])]

/-- The live state the first successful run leaves behind: the created set
carries the ID lists its finalize PUT wrote where the desired document has
`None`. -/
def c2St1 : NatState :=
  { cat := ⟨[], [], [], [], []⟩
    natpolicyset_name_config := [("SetA", .dict
      [("destination_zone_policyrule_order", .list [Value.str "new-id-1"]),
       ("name", Value.str "SetA"),
       ("source_zone_policyrule_order", .list []),
       ("clone_from", .null),
       ("id", Value.str "new-id-0")])]
    natpolicystack_name_config := []
    rulesBySet := [("new-id-0", [.dict [("name", Value.str "R1"),
      ("id", Value.str "new-id-1")]])]
    nextId := 2 }

/-- C2 (counterexample): rerunning the NAT reconciliation against an
unchanged desired document and the live state the first run itself
produced does not issue zero calls: the differ keeps reporting a set-body
change (desired `None` order fields against the live ID lists the first
run's finalize wrote), so the second run re-issues the wide set-body PUT,
and the truthy desired order list makes it re-issue the narrow dual-order
finalize PUT — while the state is a fixed point of the run. -/
theorem claim_C2_counterexample :
    (pushPolicyNat c2St0 c2Doc).map Prod.snd = some c2St1 ∧
    (pushPolicyNat c2St1 c2Doc).map Prod.fst = some
      [Call.put "natpolicysets" "new-id-0" (.dict
        [("name", Value.str "SetA"), ("clone_from", .null),
         ("id", Value.str "new-id-0")]),
       Call.put "natpolicysets" "new-id-0" (.dict
        [("id", Value.str "new-id-0"),
         ("destination_zone_policyrule_order", .list [Value.str "new-id-1"]),
         ("source_zone_policyrule_order", .list [])])] ∧
    (pushPolicyNat c2St1 c2Doc).map Prod.snd = some c2St1 :=
  ⟨by rfl, by rfl, by rfl⟩

/-- Witness for the amended C2 at the state the first run produced. -/
theorem claim_C2_witness :
    extractfromyaml c2Doc NAT_POLICY_SETS = .ok (some c2SetsYaml) ∧
    extractfromyaml c2Doc NAT_POLICY_STACKS = .ok (some []) ∧
    c2SetsYaml.all (natSetPresent c2St1.cat c2St1.natpolicyset_name_config
      c2St1.rulesBySet) = true ∧
    ([] : Dict).all (natStackPresent c2St1.cat c2St1.natpolicystack_name_config
      (c2SetsYaml.foldl (natLocalsStep c2St1.natpolicyset_name_config)
        { fresh_id_map := [], setIdName := [], setNameId := [] })) = true ∧
    snapshotCovered "default_policysetstack" c2St1.natpolicystack_name_config [] = true ∧
    snapshotCovered "defaultrule_policyset" c2St1.natpolicyset_name_config c2SetsYaml = true ∧
    (∃ tr st2, pushPolicyNat c2St1 c2Doc = some (tr, st2) ∧
      st2.rulesBySet = c2St1.rulesBySet ∧ st2.nextId = c2St1.nextId ∧
      tr.filter Call.isPost = [] ∧ tr.filter Call.isDelete = [] ∧
      ∀ c ∈ tr, c.isPut = true) :=
  ⟨rfl, rfl, rfl, rfl, rfl, rfl,
    claim_C2_amended c2St1 c2Doc c2SetsYaml [] rfl rfl rfl rfl rfl rfl⟩

/-! ### Default-set location by the stack reconcilers (C9) -/

/-- C9 (counterexample): the derived-name convention is not used by every
domain.  The Performance stack step ignores the stack's own name entirely —
two stacks with different base names receive the same value, the fresh ID
looked up under the fixed shared name `Default Performance Policy Set
(Simple)` (an ID, not a name, although the derived-named sets' fresh IDs
are also in the map) — and the NAT stack step leaves the stale
`defaultrule_policyset_id` untouched. -/
theorem claim_C9_counterexample :
    pyGet (perfStackDefaultSwap
        [("A Default Rule Policy Set (Simple)", "a-id"),
         ("B Default Rule Policy Set (Simple)", "b-id"),
         (perfGlobalDefaultName, "fixed-id")]
        [("name", .str "A (Simple)"), ("defaultrule_policyset_id", .str "stale")])
      "defaultrule_policyset_id" = some (.str "fixed-id") ∧
    pyGet (perfStackDefaultSwap
        [("A Default Rule Policy Set (Simple)", "a-id"),
         ("B Default Rule Policy Set (Simple)", "b-id"),
         (perfGlobalDefaultName, "fixed-id")]
        [("name", .str "B (Simple)"), ("defaultrule_policyset_id", .str "stale")])
      "defaultrule_policyset_id" = some (.str "fixed-id") ∧
    pyGet (natStackSwapPolicySets
        ⟨[("X Default Rule Policy Set (Simple)", "derived-id")], [], []⟩
        [("name", .str "X (Simple)"), ("defaultrule_policyset_id", .str "stale")])
      "defaultrule_policyset_id" = some (.str "stale") := by
  exact ⟨rfl, rfl, rfl⟩

/-- C9 (amended): the Path, QoS and Security stack steps force
`defaultrule_policyset_id` to the derived default-set name (strip
`" (Simple)"`, append `" Default Rule Policy Set (Simple)"`) before
name-to-ID translation; the Performance stack step instead substitutes the
fresh ID of the fixed-name shared default set when that set was touched
this run and otherwise leaves the field alone; the NAT stack step never
touches the field. -/
theorem claim_C9_amended (stackname : String) (stack_yaml : Dict)
    (m : List (String × String)) (L : NatLocals) :
    pyGet (pathPrepareStack stackname stack_yaml) "defaultrule_policyset_id" =
      some (.str (derivedDefaultName stackname)) ∧
    pyGet (qosPrepareStack stackname stack_yaml) "defaultrule_policyset_id" =
      some (.str (derivedDefaultName stackname)) ∧
    pyGet (secPrepareStack stackname stack_yaml) "defaultrule_policyset_id" =
      some (.str (derivedDefaultName stackname)) ∧
    pyGet (perfStackDefaultSwap m stack_yaml) "defaultrule_policyset_id" =
      (match tlookup m perfGlobalDefaultName with
       | some fid => some (.str fid)
       | none => pyGet stack_yaml "defaultrule_policyset_id") ∧
    pyGet (natStackSwapPolicySets L stack_yaml) "defaultrule_policyset_id" =
      pyGet stack_yaml "defaultrule_policyset_id" := by
  refine ⟨pyGet_pySet_self stack_yaml _ _, pyGet_pySet_self stack_yaml _ _,
    pyGet_pySet_self stack_yaml _ _, ?_, ?_⟩
  · cases ht : tlookup m perfGlobalDefaultName with
    | some fid =>
        simp only [perfStackDefaultSwap]
        rw [ht]
        exact pyGet_pySet_self stack_yaml _ _
    | none =>
        simp only [perfStackDefaultSwap]
        rw [ht]
  · cases hp : pyGet stack_yaml "policyset_ids" with
    | none =>
        simp only [natStackSwapPolicySets]
        rw [hp]
    | some v =>
        simp only [natStackSwapPolicySets]
        rw [hp]
        dsimp only
        by_cases htr : pyTruthy v = true
        · rw [if_pos htr]
          cases v with
          | list items =>
              exact pyGet_pySet_other stack_yaml "policyset_ids" _
                "defaultrule_policyset_id" (by decide)
          | null => rfl
          | bool b => rfl
          | num n => rfl
          | str s => rfl
          | dict d => rfl
        · rw [if_neg htr]

end PrismaPolicy
